import Mathlib

/-!
# Verification of the litematic 3D render pipeline

Shallow embedding of the core algorithms of the repository:

* src/core/render_3d/surface_builder.py (greedy face merging, UV pipeline)
* src/core/render_3d/texture_sampler.py (wire tint ramp)
* src/core/render_3d/gif_exporter.py (size estimation, export state machine)
* src/core/render_3d/animation_generator.py (camera pose sequences)
* src/core/render_3d/model_resolver.py (parent inheritance resolution)
* src/core/model_3d/model_builder.py and src/services/render_3d_manager.py
  (model building and job error codes)

Conventions: Python dicts become association lists. Machine floats are
carried as exact rationals only where the source's binary64 arithmetic is
exact for the inputs involved (each such use is justified where it occurs);
the wire tint ramp, whose double rounding is observable in its integer
output, is instead evaluated over an explicit model of IEEE-754 binary64
round-to-nearest-even arithmetic. Filesystem and renderer effects become
explicit function parameters or state values.
-/

set_option maxHeartbeats 1000000
set_option maxRecDepth 100000

namespace Litematic

/-- Integer voxel position (x, y, z), as used as keys of the voxel map. -/
abbrev Pos3 := ℤ × ℤ × ℤ

/-- The six cube face directions, keys of SurfaceBuilder.CUBE_FACE_DIRS. -/
inductive Face where
  | top
  | bottom
  | north
  | south
  | east
  | west
deriving DecidableEq, Repr

/-- SurfaceBuilder.CUBE_FACE_DIRS: outward normal of each cube face. -/
def faceDir : Face → ℤ × ℤ × ℤ
  | .top => (0, 1, 0)
  | .bottom => (0, -1, 0)
  | .north => (0, 0, -1)
  | .south => (0, 0, 1)
  | .east => (1, 0, 0)
  | .west => (-1, 0, 0)

/-- Componentwise translation of a position, as in neighbor = (x+dx, y+dy, z+dz). -/
def shiftPos (p : Pos3) (d : ℤ × ℤ × ℤ) : Pos3 :=
  (p.1 + d.1, p.2.1 + d.2.1, p.2.2 + d.2.2)

/-- The plane coordinate chosen in SurfaceBuilder._merge_face_planes:
y for top/bottom, z for north/south, x for east/west. -/
def planeIndexOf : Face → Pos3 → ℤ
  | .top, p => p.2.1
  | .bottom, p => p.2.1
  | .north, p => p.2.2
  | .south, p => p.2.2
  | .east, p => p.1
  | .west, p => p.1

/-- The 2-D in-plane cell chosen in SurfaceBuilder._merge_face_planes:
(x,z) for top/bottom, (x,y) for north/south, (z,y) for east/west. -/
def cellIndexOf : Face → Pos3 → ℤ × ℤ
  | .top, p => (p.1, p.2.2)
  | .bottom, p => (p.1, p.2.2)
  | .north, p => (p.1, p.2.1)
  | .south, p => (p.1, p.2.1)
  | .east, p => (p.2.2, p.2.1)
  | .west, p => (p.2.2, p.2.1)

/-- Material key of a cube face, SurfaceBuilder._get_cube_face_key:
either a resolved texture name or a shaded flat color. -/
inductive CubeKey where
  | tex (name : String)
  | color (rgb : ℤ × ℤ × ℤ)
deriving DecidableEq, Repr

/-- SurfaceBuilder._map_cube_face. -/
def mapCubeFace : Face → String
  | .top => "top"
  | .bottom => "bottom"
  | _ => "side"

/-- Face name string of each Face, as stored in emitted surface records. -/
def faceName : Face → String
  | .top => "top"
  | .bottom => "bottom"
  | .north => "north"
  | .south => "south"
  | .east => "east"
  | .west => "west"

/-- SurfaceBuilder.FACE_SHADE for the cube face names used by the greedy path. -/
def faceShade : Face → ℚ
  | .top => 1.2
  | .bottom => 0.7
  | .north => 0.9
  | .south => 0.9
  | .east => 0.8
  | .west => 0.8

/-- SurfaceBuilder._apply_shading: each channel is scaled by the face factor,
truncated to an integer (Python int(), equal to floor on the nonnegative
channel values), and clamped to at most 255. -/
def applyShading (c : ℤ × ℤ × ℤ) (face : Face) : ℤ × ℤ × ℤ :=
  let factor := faceShade face
  (min 255 ⌊(c.1 : ℚ) * factor⌋,
   min 255 ⌊(c.2.1 : ℚ) * factor⌋,
   min 255 ⌊(c.2.2 : ℚ) * factor⌋)

/-- Python str.split(sep) on the character list of a string (one-character
separator): splits at every occurrence, keeping empty parts. Implemented by
structural recursion so that concrete instances evaluate by kernel
reduction. -/
def splitCharsOn (sep : Char) : List Char → List (List Char)
  | [] => [[]]
  | c :: rest =>
    let r := splitCharsOn sep rest
    if c = sep then [] :: r
    else
      match r with
      | [] => [[c]]
      | g :: gs => (c :: g) :: gs

/-- Python block_id.split(":")[-1]. -/
def lastIdPart (blockId : String) : String :=
  match (splitCharsOn ':' blockId.data).getLast? with
  | some cs => String.mk cs
  | none => blockId

/-- Decimal digit value of a character, none for non-digits. -/
def digitVal (c : Char) : Option ℕ :=
  if '0' ≤ c ∧ c ≤ '9' then some (c.toNat - '0'.toNat) else none

/-- Accumulating decimal parse of a digit run. -/
def parseDigitsAux (acc : ℕ) : List Char → Option ℕ
  | [] => some acc
  | c :: rest =>
    match digitVal c with
    | none => none
    | some d => parseDigitsAux (acc * 10 + d) rest

/-- Python int(str) on a plain decimal literal (optional sign, at least one
digit, nothing else); anything unparsable gives none, matching the
ValueError branch of the source. -/
def strToInt (s : String) : Option ℤ :=
  match s.data with
  | [] => none
  | '-' :: rest =>
    match rest with
    | [] => none
    | _ => (parseDigitsAux 0 rest).map fun n => -(n : ℤ)
  | l => (parseDigitsAux 0 l).map fun n => (n : ℤ)

/-- Decimal string of an integer (Python str(int)). -/
def intToDecimalString (p : ℤ) : String :=
  match p with
  | .ofNat n => String.mk (Nat.toDigits 10 n)
  | .negSucc n => String.mk ('-' :: Nat.toDigits 10 (n + 1))

/-- SurfaceBuilder._get_cube_face_key for one (block id, face) pair.
The texture sampler is the external resource tree: resolve gives the
resolved texture name if one exists, sample the sampled flat color.
The per-(block,face) cache of the source is a pure memoisation of this
deterministic computation and is not modelled. -/
def getCubeFaceKey (resolve : String → String → Option String)
    (sample : String → String → ℤ × ℤ × ℤ)
    (blockId : String) (face : Face) : CubeKey :=
  let blockName := lastIdPart blockId
  let textureFace := mapCubeFace face
  match resolve blockName textureFace with
  | some t => .tex t
  | none => .color (applyShading (sample blockName textureFace) face)

/-- A populated grid cell of one merge plane: material key plus the block id
of the voxel that produced it (the value stored in the planes dict). -/
abbrev GridCell := CubeKey × String

/-- First-match association list lookup; with the key lists used here being
duplicate-free this coincides with Python dict lookup. -/
def assocFind {α β : Type} [DecidableEq α] : List (α × β) → α → Option β
  | [], _ => none
  | kv :: rest, k => if k = kv.1 then some kv.2 else assocFind rest k

/-- The cells dict of one plane built by SurfaceBuilder._merge_face_planes:
for every full-cube voxel whose neighbor along the face normal is absent
from the (full) voxel map, one cell keyed by the in-plane coordinates and
holding (material key, block id). -/
def planeCells (resolve : String → String → Option String)
    (sample : String → String → ℤ × ℤ × ℤ)
    (present : Pos3 → Bool)
    (cubeBlocks : List (Pos3 × String)) (face : Face) (plane : ℤ) :
    List ((ℤ × ℤ) × GridCell) :=
  cubeBlocks.filterMap fun pb =>
    if present (shiftPos pb.1 (faceDir face)) then none
    else if planeIndexOf face pb.1 = plane then
      some (cellIndexOf face pb.1, (getCubeFaceKey resolve sample pb.2 face, pb.2))
    else none

/-- Minimum of a list of integers (min() over the nonempty coordinate lists). -/
def listMin : List ℤ → ℤ
  | [] => 0
  | [x] => x
  | x :: y :: rest => min x (listMin (y :: rest))

/-- Maximum of a list of integers (max() over the nonempty coordinate lists). -/
def listMax : List ℤ → ℤ
  | [] => 0
  | [x] => x
  | x :: y :: rest => max x (listMax (y :: rest))

/-- A merged rectangle found by the greedy scan, in grid coordinates
(row, col are offsets from (v_min, u_min)). -/
structure RectG where
  row : ℕ
  col : ℕ
  width : ℕ
  height : ℕ
  key : CubeKey
  blockId : String
deriving DecidableEq, Repr

/-- The condition under which the greedy scan may extend into a grid cell:
the cell is populated, shares the material key, and is not visited
(the negation of the break condition in _greedy_merge_plane). -/
def cellOk (mask : ℕ → ℕ → Option GridCell) (visited : List (ℕ × ℕ))
    (key : CubeKey) (r c : ℕ) : Bool :=
  match mask r c with
  | none => false
  | some cell => decide (cell.1 = key) && decide ((r, c) ∉ visited)

/-- The width-growing while loop of _greedy_merge_plane:
while col + width < cols and the next cell in the row is ok, width += 1.
fuel bounds the iteration count (cols suffices). -/
def widthLoop (ok : ℕ → Bool) (cols col : ℕ) : ℕ → ℕ → ℕ
  | 0, width => width
  | fuel + 1, width =>
    if col + width < cols && ok (col + width) then
      widthLoop ok cols col fuel (width + 1)
    else width

/-- The can_expand check of the height-growing loop: every cell of the next
row under the rectangle's full width is ok. -/
def heightOk (ok2 : ℕ → ℕ → Bool) (row col width h : ℕ) : Bool :=
  (List.range width).all fun offset => ok2 (row + h) (col + offset)

/-- The height-growing while loop of _greedy_merge_plane. -/
def heightLoop (ok2 : ℕ → ℕ → Bool) (rows row col width : ℕ) : ℕ → ℕ → ℕ
  | 0, height => height
  | fuel + 1, height =>
    if row + height < rows && heightOk ok2 row col width height then
      heightLoop ok2 rows row col width fuel (height + 1)
    else height

/-- The grid cells covered by a rectangle seeded at (row, col) with the given
height and width, in the order they are marked visited. -/
def rectCells (row col height width : ℕ) : List (ℕ × ℕ) :=
  (List.range height).flatMap fun i => (List.range width).map fun j => (row + i, col + j)

/-- Row-major scan order over the grid. -/
def gridPositions (rows cols : ℕ) : List (ℕ × ℕ) :=
  (List.range rows).flatMap fun r => (List.range cols).map fun c => (r, c)

/-- The main scan loop of _greedy_merge_plane: walk the positions in row-major
order; at each unvisited populated cell grow a rectangle (width first, then
height), mark its cells visited and emit it. Returns the final visited set
and the emitted rectangles in order. -/
def scanGo (mask : ℕ → ℕ → Option GridCell) (rows cols : ℕ) :
    List (ℕ × ℕ) → List (ℕ × ℕ) → List RectG → List (ℕ × ℕ) × List RectG
  | [], visited, rects => (visited, rects)
  | (r, c) :: rest, visited, rects =>
    match mask r c with
    | none => scanGo mask rows cols rest visited rects
    | some cell =>
      if (r, c) ∈ visited then scanGo mask rows cols rest visited rects
      else
        let key := cell.1
        let w := widthLoop (fun cc => cellOk mask visited key r cc) cols c cols 1
        let h := heightLoop (fun rr cc => cellOk mask visited key rr cc) rows r c w rows 1
        scanGo mask rows cols rest (visited ++ rectCells r c h w)
          (rects ++ [⟨r, c, w, h, key, cell.2⟩])

/-- A merged rectangle in world (in-plane) coordinates: it covers the unit
cells [u0, u0+width) × [v0, v0+height). -/
structure MergedRect where
  u0 : ℤ
  v0 : ℤ
  width : ℕ
  height : ℕ
  key : CubeKey
  blockId : String
deriving DecidableEq, Repr

/-- The bounding-grid mask of _greedy_merge_plane: grid cell (row, col)
holds the dict entry at in-plane coordinates (u_min + col, v_min + row);
indices outside the rows x cols array are unpopulated. -/
def gridMask (cells : List ((ℤ × ℤ) × GridCell)) (uMin vMin : ℤ)
    (rows cols : ℕ) : ℕ → ℕ → Option GridCell := fun r c =>
  if r < rows ∧ c < cols then assocFind cells (uMin + c, vMin + r) else none

/-- Grid rectangle translated back to absolute in-plane coordinates, as in
u0 = u_min + col, v0 = v_min + row of the source. -/
def rectToWorld (uMin vMin : ℤ) (R : RectG) : MergedRect :=
  ⟨uMin + R.col, vMin + R.row, R.width, R.height, R.key, R.blockId⟩

/-- SurfaceBuilder._greedy_merge_plane, coverage part: build the bounding
grid over the populated cells, scan it greedily and return the merged
rectangles translated back to absolute in-plane coordinates. The source is
only ever called with a nonempty cells dict; the empty guard mirrors that
boundary. -/
def greedyMergePlane (cells : List ((ℤ × ℤ) × GridCell)) : List MergedRect :=
  if cells.isEmpty then []
  else
    let uMin := listMin (cells.map fun x => x.1.1)
    let uMax := listMax (cells.map fun x => x.1.1)
    let vMin := listMin (cells.map fun x => x.1.2)
    let vMax := listMax (cells.map fun x => x.1.2)
    let rows := (vMax - vMin + 1).toNat
    let cols := (uMax - uMin + 1).toNat
    let out := scanGo (gridMask cells uMin vMin rows cols) rows cols
      (gridPositions rows cols) [] []
    out.2.map (rectToWorld uMin vMin)

/-- The merged rectangles emitted for one plane of one face direction
(_merge_face_planes restricted to that plane, followed by the greedy scan). -/
def mergeFacePlaneRects (resolve : String → String → Option String)
    (sample : String → String → ℤ × ℤ × ℤ) (present : Pos3 → Bool)
    (cubeBlocks : List (Pos3 × String)) (face : Face) (plane : ℤ) :
    List MergedRect :=
  greedyMergePlane (planeCells resolve sample present cubeBlocks face plane)

/-! ## UV pipeline (SurfaceBuilder element faces and merged quads) -/

/-- 3-D point with exact rational coordinates (machine floats idealised). -/
abbrev Vec3 := ℚ × ℚ × ℚ

/-- Model-space face names as used by model elements and by the merged-quad
emission (up/down instead of top/bottom). -/
inductive ModelFace where
  | north
  | south
  | east
  | west
  | up
  | down
deriving DecidableEq, Repr

/-- SurfaceBuilder._get_face_vertices: the 4 corners of the axis-aligned face
of the cuboid [fr, toC], in the fixed winding of the source. -/
def getFaceVertices (face : ModelFace) (fr toC : Vec3) : List Vec3 :=
  let x1 := fr.1; let y1 := fr.2.1; let z1 := fr.2.2
  let x2 := toC.1; let y2 := toC.2.1; let z2 := toC.2.2
  match face with
  | .north => [(x1, y1, z1), (x2, y1, z1), (x2, y2, z1), (x1, y2, z1)]
  | .south => [(x1, y1, z2), (x1, y2, z2), (x2, y2, z2), (x2, y1, z2)]
  | .east => [(x2, y1, z1), (x2, y1, z2), (x2, y2, z2), (x2, y2, z1)]
  | .west => [(x1, y1, z1), (x1, y2, z1), (x1, y2, z2), (x1, y1, z2)]
  | .up => [(x1, y2, z1), (x2, y2, z1), (x2, y2, z2), (x1, y2, z2)]
  | .down => [(x1, y1, z1), (x1, y1, z2), (x2, y1, z2), (x2, y1, z1)]

/-- UV rectangle (u1, v1, u2, v2) in 0-16 texture units. -/
abbrev UvRect := ℚ × ℚ × ℚ × ℚ

/-- SurfaceBuilder._get_vertex_uvs: per-vertex UV by linear interpolation of
the face's in-plane factors within the UV rectangle. A zero extent along an
axis gives factor 0.0, as in the source's conditional expressions. -/
def getVertexUVs (face : ModelFace) (vertices : List Vec3) (fr toC : Vec3)
    (uvRect : UvRect) : List (ℚ × ℚ) :=
  let x1 := fr.1; let y1 := fr.2.1; let z1 := fr.2.2
  let x2 := toC.1; let y2 := toC.2.1; let z2 := toC.2.2
  let u1 := uvRect.1; let v1 := uvRect.2.1
  let u2 := uvRect.2.2.1; let v2 := uvRect.2.2.2
  let dx := x2 - x1
  let dy := y2 - y1
  let dz := z2 - z1
  vertices.map fun v =>
    let vx := v.1; let vy := v.2.1; let vz := v.2.2
    let uf : ℚ :=
      match face with
      | .north => if dx = 0 then 0 else (vx - x1) / dx
      | .south => if dx = 0 then 0 else (x2 - vx) / dx
      | .east => if dz = 0 then 0 else (vz - z1) / dz
      | .west => if dz = 0 then 0 else (z2 - vz) / dz
      | .up => if dx = 0 then 0 else (vx - x1) / dx
      | .down => if dx = 0 then 0 else (vx - x1) / dx
    let vf : ℚ :=
      match face with
      | .up => if dz = 0 then 0 else (vz - z1) / dz
      | .down => if dz = 0 then 0 else (z2 - vz) / dz
      | _ => if dy = 0 then 0 else (y2 - vy) / dy
    (u1 + uf * (u2 - u1), v1 + vf * (v2 - v1))

/-- SurfaceBuilder._apply_uv_rotation: rotate UVs by 0/90/180/270 degrees
about the centre of their UV rectangle (identity for rotation 0, degenerate
rectangles, and unrecognised angles, as in the source). -/
def applyUvRotation (uvs : List (ℚ × ℚ)) (uvRect : UvRect) (rotation : ℤ) :
    List (ℚ × ℚ) :=
  let rot := rotation % 360
  if rot = 0 then uvs
  else
    let u1 := uvRect.1; let v1 := uvRect.2.1
    let u2 := uvRect.2.2.1; let v2 := uvRect.2.2.2
    let width := u2 - u1
    let height := v2 - v1
    if width = 0 ∨ height = 0 then uvs
    else
      uvs.map fun uv =>
        let s := (uv.1 - u1) / width
        let t := (uv.2 - v1) / height
        let st : ℚ × ℚ :=
          if rot = 90 then (t, 1 - s)
          else if rot = 180 then (1 - s, 1 - t)
          else if rot = 270 then (1 - t, s)
          else (s, t)
        (u1 + st.1 * width, v1 + st.2 * height)

/-- SurfaceBuilder._normalize_uvs: divide both coordinates by 16. -/
def normalizeUVs (uvs : List (ℚ × ℚ)) : List (ℚ × ℚ) :=
  uvs.map fun uv => (uv.1 / 16, uv.2 / 16)

/-- The UV list attached to one emitted model-element face, following
_build_model_surfaces lines 228-234: interpolate in the UV rectangle,
apply the declared rotation when nonzero, then normalize. -/
def modelFaceUVs (face : ModelFace) (fr toC : Vec3) (uvRect : UvRect)
    (rotation : ℤ) : List (ℚ × ℚ) :=
  let uvs := getVertexUVs face (getFaceVertices face fr toC) fr toC uvRect
  let uvs := if rotation % 360 = 0 then uvs else applyUvRotation uvs uvRect rotation
  normalizeUVs uvs

/-- An emitted surface record (the dicts appended by SurfaceBuilder):
either textured with UVs or flat colored. -/
inductive Surface where
  | textured (vertices : List Vec3) (uvs : List (ℚ × ℚ)) (texture : String)
      (tint : Option (ℤ × ℤ × ℤ)) (face : String) (blockId : String)
  | colored (vertices : List Vec3) (color : ℤ × ℤ × ℤ) (face : String)
      (blockId : String)
deriving DecidableEq, Repr

/-- SurfaceBuilder._build_merged_surface: local face vertices of the merged
cuboid [0, size], their normalized UVs, and the translation to the world
origin. -/
def buildMergedSurface (uvFace : ModelFace) (origin : ℤ × ℤ × ℤ)
    (sizeX sizeY sizeZ : ℕ) (uvRect : UvRect) :
    List Vec3 × List (ℚ × ℚ) :=
  let fr : Vec3 := (0, 0, 0)
  let toC : Vec3 := (sizeX, sizeY, sizeZ)
  let localVertices := getFaceVertices uvFace fr toC
  let uvs := normalizeUVs (getVertexUVs uvFace localVertices fr toC uvRect)
  let vertices := localVertices.map fun v =>
    (v.1 + (origin.1 : ℚ), v.2.1 + (origin.2.1 : ℚ), v.2.2 + (origin.2.2 : ℚ))
  (vertices, uvs)

/-- The quad emitted for one merged rectangle (the tail of the
_greedy_merge_plane loop body): origin, sizes, UV face and UV rectangle per
face direction, then _build_merged_surface and the textured/colored record. -/
def emitMergedSurface (face : Face) (plane : ℤ) (R : MergedRect) : Surface :=
  let data : (ℤ × ℤ × ℤ) × ℕ × ℕ × ℕ × ModelFace × UvRect :=
    match face with
    | .top => ((R.u0, plane, R.v0), R.width, 1, R.height, .up,
        (0, 0, 16 * (R.width : ℚ), 16 * (R.height : ℚ)))
    | .bottom => ((R.u0, plane, R.v0), R.width, 1, R.height, .down,
        (0, 0, 16 * (R.width : ℚ), 16 * (R.height : ℚ)))
    | .north => ((R.u0, R.v0, plane), R.width, R.height, 1, .north,
        (0, 0, 16 * (R.width : ℚ), 16 * (R.height : ℚ)))
    | .south => ((R.u0, R.v0, plane), R.width, R.height, 1, .south,
        (0, 0, 16 * (R.width : ℚ), 16 * (R.height : ℚ)))
    | .east => ((plane, R.v0, R.u0), 1, R.height, R.width, .east,
        (0, 0, 16 * (R.width : ℚ), 16 * (R.height : ℚ)))
    | .west => ((plane, R.v0, R.u0), 1, R.height, R.width, .west,
        (0, 0, 16 * (R.width : ℚ), 16 * (R.height : ℚ)))
  let origin := data.1
  let sx := data.2.1; let sy := data.2.2.1; let sz := data.2.2.2.1
  let uvFace := data.2.2.2.2.1
  let uvRect := data.2.2.2.2.2
  let vu := buildMergedSurface uvFace origin sx sy sz uvRect
  match R.key with
  | .tex t => .textured vu.1 vu.2 t none (faceName face) R.blockId
  | .color c => .colored vu.1 c (faceName face) R.blockId

/-- The surfaces emitted for one plane of one face direction. -/
def mergeFacePlanes (resolve : String → String → Option String)
    (sample : String → String → ℤ × ℤ × ℤ) (present : Pos3 → Bool)
    (cubeBlocks : List (Pos3 × String)) (face : Face) (plane : ℤ) :
    List Surface :=
  (mergeFacePlaneRects resolve sample present cubeBlocks face plane).map
    (emitMergedSurface face plane)

/-- The plane coordinates occurring among the culled-in cells of one face
(the key set of the planes dict of _merge_face_planes). -/
def planesOf (present : Pos3 → Bool) (cubeBlocks : List (Pos3 × String))
    (face : Face) : List ℤ :=
  (cubeBlocks.filterMap fun pb =>
    if present (shiftPos pb.1 (faceDir face)) then none
    else some (planeIndexOf face pb.1)).dedup

/-- SurfaceBuilder._build_greedy_cube_surfaces: for each of the six face
directions, merge every populated plane. -/
def buildGreedyCubeSurfaces (resolve : String → String → Option String)
    (sample : String → String → ℤ × ℤ × ℤ) (present : Pos3 → Bool)
    (cubeBlocks : List (Pos3 × String)) : List Surface :=
  [Face.top, Face.bottom, Face.north, Face.south, Face.east, Face.west].flatMap
    fun face =>
      (planesOf present cubeBlocks face).flatMap fun plane =>
        mergeFacePlanes resolve sample present cubeBlocks face plane

/-! ## Wire tint ramp (TextureSampler._get_tint_color)

The tint ramp's double rounding is observable in its integer output — at
power 15 the program computes int((0.7 - 0.5) * 255) = int(50.99...) = 50,
where exact rational arithmetic would give 51 — so this function is
embedded over an explicit model of IEEE-754 binary64 arithmetic. A float is
a pair (m, e) of integers with value m * 2 ^ e; every operation computes
the exact result and rounds the significand to 53 bits with
round-to-nearest, ties-to-even, exactly as binary64 does. All values
arising in the ramp are normal and far from overflow and underflow, so the
unbounded-exponent model coincides with binary64 on them. -/

/-- Fuel-indexed binary logarithm on naturals: for fuel at least the bit
length of n, lg2F fuel n is the index of the leading bit of n (0 for n < 2),
written structurally so that the kernel can evaluate it. -/
def lg2F : ℕ → ℕ → ℕ
  | 0, _ => 0
  | fuel + 1, n => if 2 ≤ n then lg2F fuel (n / 2) + 1 else 0

/-- Round a nonnegative significand m (of value m * 2 ^ e) to 53 bits with
round-to-nearest, ties-to-even: keep the top 53 bits and resolve the
discarded tail against its halfway point. -/
def rnePos (m : ℕ) (e : ℤ) : ℕ × ℤ :=
  let b := lg2F 400 m + 1
  if b ≤ 53 then (m, e)
  else
    let s := b - 53
    let q := m / 2 ^ s
    let r := m % 2 ^ s
    let half := 2 ^ (s - 1)
    let q2 := if r < half then q
              else if half < r then q + 1
              else if q % 2 = 0 then q else q + 1
    (q2, e + (s : ℤ))

/-- Round a signed exact dyadic value m * 2 ^ e to binary64 precision. -/
def fnorm (m : ℤ) (e : ℤ) : ℤ × ℤ :=
  if 0 ≤ m then
    let p := rnePos m.toNat e
    ((p.1 : ℤ), p.2)
  else
    let p := rnePos (-m).toNat e
    (-(p.1 : ℤ), p.2)

/-- Binary64 multiplication: the exact product of two dyadics, rounded. -/
def fmul (a b : ℤ × ℤ) : ℤ × ℤ := fnorm (a.1 * b.1) (a.2 + b.2)

/-- Binary64 addition: the exact sum on the smaller exponent, rounded. -/
def fadd (a b : ℤ × ℤ) : ℤ × ℤ :=
  if a.2 ≤ b.2 then fnorm (a.1 + b.1 * 2 ^ (b.2 - a.2).toNat) a.2
  else fnorm (a.1 * 2 ^ (a.2 - b.2).toNat + b.1) b.2

/-- Binary64 subtraction: addition of the (exactly representable) negation. -/
def fsub (a b : ℤ × ℤ) : ℤ × ℤ := fadd a (-b.1, b.2)

/-- Correctly rounded quotient of positive dyadics ma * 2 ^ ea / (mb * 2 ^ eb):
scale the dividend so the integer quotient carries 53 significant bits plus
guard bits, then round to nearest with the division remainder as the sticky
bit (a nonzero remainder turns the halfway case into a round-up and can
never pull a below-half tail across the halfway point). -/
def fdivPos (ma : ℕ) (ea : ℤ) (mb : ℕ) (eb : ℤ) : ℤ × ℤ :=
  let k := 55 + lg2F 400 mb
  let a := ma * 2 ^ k
  let q := a / mb
  let r := a % mb
  let b := lg2F 400 q + 1
  let s := b - 53
  let d := q % 2 ^ s
  let half := 2 ^ (s - 1)
  let q0 := q / 2 ^ s
  let q2 := if d < half then q0
            else if half < d then q0 + 1
            else if r = 0 then (if q0 % 2 = 0 then q0 else q0 + 1) else q0 + 1
  ((q2 : ℤ), ea - eb - (k : ℤ) + (s : ℤ))

/-- Binary64 division by a nonzero value (as in the source, where the divisor
is the constant 15.0). -/
def fdiv (a b : ℤ × ℤ) : ℤ × ℤ :=
  if a.1 = 0 then (0, 0)
  else
    let p := fdivPos a.1.natAbs a.2 b.1.natAbs b.2
    if (0 ≤ a.1 ∧ 0 ≤ b.1) ∨ (a.1 < 0 ∧ b.1 < 0) then p else (-p.1, p.2)

/-- The binary64 value denoted by the decimal literal num / den: a correctly
rounded quotient is the representable double nearest the literal's rational
value, which is how Python reads a float literal. -/
def floatLit (num den : ℕ) : ℤ × ℤ := fdivPos num 0 den 0

/-- Python max(0.0, x) on a binary64 value: 0.0 when x is negative. -/
def fmax0 (x : ℤ × ℤ) : ℤ × ℤ := if x.1 < 0 then (0, 0) else x

/-- Python int() truncation toward zero of a binary64 value. -/
def ftrunc (x : ℤ × ℤ) : ℤ :=
  if 0 ≤ x.2 then x.1 * 2 ^ x.2.toNat
  else
    let d : ℕ := 2 ^ (-x.2).toNat
    if 0 ≤ x.1 then ((x.1.toNat / d : ℕ) : ℤ) else -(((-x.1).toNat / d : ℕ) : ℤ)

/-- TextureSampler._get_tint_color. Properties are the state-property dict;
the power value is parsed as an integer with fallback 0 (int() with the
try/except of the source) and clamped to 0..15, and the fixed ramp
  f = power / 15.0
  r = f * 0.6 + 0.4
  g = max(0.0, f * f * 0.7 - 0.5)
  b = max(0.0, f * f * 0.6 - 0.7)
  return (int(r * 255), int(g * 255), int(b * 255))
is evaluated in the binary64 model above: the int-to-float conversions of
power, 15 and 255 are exact, each decimal literal denotes its nearest
double, and every arithmetic step rounds to nearest-even. -/
def getTintColor (blockId : String) (properties : List (String × String))
    (tintindex : Option ℤ) : Option (ℤ × ℤ × ℤ) :=
  match tintindex with
  | none => none
  | some _ =>
    let name := lastIdPart blockId
    if name ≠ "redstone_wire" then none
    else
      let power : ℤ :=
        match assocFind properties "power" with
        | none => 0
        | some s => (strToInt s).getD 0
      let power := max 0 (min 15 power)
      let f := fdiv (power, 0) (15, 0)
      let r := fadd (fmul f (floatLit 6 10)) (floatLit 4 10)
      let g := fmax0 (fsub (fmul (fmul f f) (floatLit 7 10)) (floatLit 5 10))
      let b := fmax0 (fsub (fmul (fmul f f) (floatLit 6 10)) (floatLit 7 10))
      some (ftrunc (fmul r (255, 0)), ftrunc (fmul g (255, 0)),
            ftrunc (fmul b (255, 0)))

/-- The wire tint at a given power: _get_tint_color for a redstone wire block
with the power property set and a non-null tint index. -/
def wireTint (power : ℤ) : Option (ℤ × ℤ × ℤ) :=
  getTintColor "minecraft:redstone_wire" [("power", intToDecimalString power)] (some 0)

/-- The green channel of the wire tint (0 when no tint is returned). -/
def wireGreen (power : ℤ) : ℤ :=
  match wireTint power with
  | none => 0
  | some c => c.2.1

/-! ## GIF size estimation (GifExporter.estimate_scaled_size) -/

/-- GifExporter.estimate_scaled_size. The float computation
  estimated = width * height * 0.25 * frame_count,
  scale = sqrt(max_size / estimated),
  new = (max(1, int(width * scale)), max(1, int(height * scale)))
is exact real arithmetic on these inputs up to the final truncation; the
truncated products are realised by the integer square root
int(w * sqrt(m / est)) = Nat.sqrt (w * w * 4 * m / (w * h * fc)),
an identity proved in the claim C5 theorem below. -/
def estimateScaledSize (width height : ℕ) (frameCount : ℤ) (maxSize : ℕ) :
    Option (ℕ × ℕ) :=
  if frameCount ≤ 0 then none
  else
    let fc := frameCount.toNat
    let den := width * height * fc
    if den ≤ 4 * maxSize then none
    else
      some (max 1 (Nat.sqrt (width * width * (4 * maxSize) / den)),
            max 1 (Nat.sqrt (height * height * (4 * maxSize) / den)))

/-! ## Rotation animation poses (AnimationGenerator.iter_rotation_frames) -/

/-- The camera parameters of one animation frame before the trigonometric
eye-position computation: the azimuth angle (degrees) fed into cos/sin and
the fixed elevation. -/
structure CamPose where
  azimuthDeg : ℚ
  elevationDeg : ℚ
deriving DecidableEq, Repr

/-- AnimationGenerator.iter_rotation_frames, camera path part: n poses with
angle_increment = 360 / n, frame i at azimuth i * angle_increment and fixed
elevation. The eye position is center + distance * (cos az, sin elev, sin az)
per frame; the rendering of each pose is external. -/
def iterRotationPoses (nFrames : ℕ) (elevation : ℚ) : List CamPose :=
  let angleIncrement : ℚ := 360 / (nFrames : ℚ)
  (List.range nFrames).map fun (i : ℕ) => ⟨(i : ℚ) * angleIncrement, elevation⟩

/-! ## Model inheritance resolution (ModelResolver) -/

/-- A block model file: the keys of the JSON dict that resolution inspects
(parent, textures, elements), plus the remaining keys. Optional fields model
key presence in the dict; element payloads are uninterpreted here. -/
structure ModelData where
  parent : Option String
  textures : Option (List (String × String))
  elements : Option (List String)
  other : List (String × String)
deriving DecidableEq, Repr

/-- Character-level prefix test (str.startswith). -/
def charsHaveLead : List Char → List Char → Bool
  | [], _ => true
  | _ :: _, [] => false
  | p :: ps, c :: cs => if p = c then charsHaveLead ps cs else false

/-- ModelResolver._normalize_model_name: strip the "minecraft:" namespace and
the "block/" path. -/
def normalizeModelName (name : String) : String :=
  let cs := name.data
  let cs1 := if charsHaveLead "minecraft:".data cs then cs.drop 10 else cs
  let cs2 := if charsHaveLead "block/".data cs1 then cs1.drop 6 else cs1
  String.mk cs2

/-- Python dict update of an association list: existing keys are overwritten
in place, new keys appended. -/
def dictInsert {α β : Type} [DecidableEq α] (l : List (α × β)) (k : α) (v : β) :
    List (α × β) :=
  if l.any fun kv => kv.1 = k then
    l.map fun kv => if kv.1 = k then (k, v) else kv
  else l ++ [(k, v)]

/-- dict.update over a whole list of pairs. -/
def dictUpdate {α β : Type} [DecidableEq α] (base upd : List (α × β)) :
    List (α × β) :=
  upd.foldl (fun acc kv => dictInsert acc kv.1 kv.2) base

/-- ModelResolver._merge_model_data: start from the parent's dict; the child's
textures are merged key-by-key into the parent's, the child's elements
replace the parent's wholesale, and every other child key is copied only
when absent from the parent. -/
def mergeModelData (parent child : ModelData) : ModelData :=
  { parent := parent.parent.orElse fun _ => child.parent
    textures :=
      match parent.textures, child.textures with
      | some pt, some ct => some (dictUpdate pt ct)
      | some pt, none => some pt
      | none, ct => ct
    elements := child.elements.orElse fun _ => parent.elements
    other := parent.other ++ child.other.filter fun kv =>
      ¬ (parent.other.any fun pv => pv.1 = kv.1) }

/-- ModelResolver._resolve_inheritance with explicit fuel. The store maps a
normalized model name to its parsed file (missing or unreadable files give
none; the source returns the child unchanged in that case). The source has
no cycle guard and no fuel: fuel exhaustion (result none) models recursion
that has not terminated within that depth. -/
def resolveInheritanceFuel (store : String → Option ModelData) :
    ℕ → ModelData → Option ModelData
  | 0, _ => none
  | fuel + 1, m =>
    match m.parent with
    | none => some m
    | some pname =>
      match store (normalizeModelName pname) with
      | none => some m
      | some pdata =>
        match resolveInheritanceFuel store fuel pdata with
        | none => none
        | some pres => some (mergeModelData pres m)

/-- The parent model one resolution step loads: none when the model has no
parent reference or the parent file is missing/unreadable. -/
def nextParent (store : String → Option ModelData) (m : ModelData) :
    Option ModelData :=
  match m.parent with
  | none => none
  | some pname => store (normalizeModelName pname)

/-- The chain of parent references starting at m ends within n loads. -/
def chainEndsWithin (store : String → Option ModelData) :
    ℕ → ModelData → Bool
  | 0, m => (nextParent store m).isNone
  | n + 1, m =>
    match nextParent store m with
    | none => true
    | some pd => chainEndsWithin store n pd

/-! ## Model building and job pipeline (ModelBuilder, Render3DManager) -/

/-- One decoded block record: id and state properties (None blocks of the
decoder are represented by an absent record value). -/
structure BlockInfo where
  id : String
  properties : List (String × String)
deriving DecidableEq, Repr

/-- Axis-aligned bounding box accumulated by ModelBuilder. -/
structure BBox where
  minX : ℤ
  maxX : ℤ
  minY : ℤ
  maxY : ℤ
  minZ : ℤ
  maxZ : ℤ
deriving DecidableEq, Repr

/-- Extend the bounding box with one position (the six min/max updates);
none is the initial +-infinity state of the source. -/
def updateBounds (b : Option BBox) (p : Pos3) : BBox :=
  match b with
  | none => ⟨p.1, p.1, p.2.1, p.2.1, p.2.2, p.2.2⟩
  | some bb =>
    ⟨min bb.minX p.1, max bb.maxX p.1, min bb.minY p.2.1, max bb.maxY p.2.1,
     min bb.minZ p.2.2, max bb.maxZ p.2.2⟩

/-- The result of ModelBuilder.build_from_litematic: the success flag it
returns, the voxel map and the bounds. -/
structure BuiltModel where
  ok : Bool
  blocks : List (Pos3 × BlockInfo)
  bounds : Option BBox
deriving Repr

/-- Python dict assignment blocks[(x,y,z)] = data. -/
def dictInsertBlocks (l : List (Pos3 × BlockInfo)) (p : Pos3) (b : BlockInfo) :
    List (Pos3 × BlockInfo) :=
  dictInsert l p b

/-- ModelBuilder.build_from_litematic on the flattened region records: skip
absent blocks and "minecraft:air", store everything else, track bounds.
The source returns False only when an exception escapes the loop; the pure
embedding has no exceptions, so ok is always true. -/
def buildFromLitematic (records : List (Pos3 × Option BlockInfo)) : BuiltModel :=
  let st := records.foldl
    (fun (st : List (Pos3 × BlockInfo) × Option BBox) r =>
      match r.2 with
      | none => st
      | some b =>
        if b.id = "minecraft:air" then st
        else (dictInsertBlocks st.1 r.1 b, some (updateBounds st.2 r.1)))
    ([], none)
  ⟨true, st.1, st.2⟩

/-- SurfaceBuilder.build_surfaces. The special-geometry dispatch
(_get_special_models, which consults the disk-backed model resolver) and the
per-element emission (_build_model_surfaces, whose vertex math uses the
renderer's trigonometry) are external-data-dependent and passed in as
functions; blocks without special geometry take the fully embedded greedy
cube path. -/
def buildSurfaces {μ : Type}
    (special : String → List (String × String) → List μ)
    (modelSurf : Pos3 → String → List (String × String) → μ → List Surface)
    (resolve : String → String → Option String)
    (sample : String → String → ℤ × ℤ × ℤ)
    (blocks : List (Pos3 × BlockInfo)) : List Surface :=
  let present : Pos3 → Bool := fun p => blocks.any fun pb => pb.1 = p
  let acc := blocks.foldl
    (fun (acc : List Surface × List (Pos3 × String)) pb =>
      let insts := special pb.2.id pb.2.properties
      if insts.isEmpty then (acc.1, acc.2 ++ [(pb.1, pb.2.id)])
      else (acc.1 ++ insts.flatMap (modelSurf pb.1 pb.2.id pb.2.properties), acc.2))
    ([], [])
  if acc.2.isEmpty then acc.1
  else acc.1 ++ buildGreedyCubeSurfaces resolve sample present acc.2

/-- PyVistaRenderer.create_mesh, decision structure: an empty surface list is
rejected immediately; otherwise success depends on the external mesh
construction, abstracted by meshOk. -/
def createMesh (meshOk : Bool) (surfaces : List Surface) : Bool :=
  if surfaces.isEmpty then false else meshOk

/-- Render3DManager._calculate_native_window_size on the model bounds. The
source reads the dimensions dict of get_model_data (width = max_x - min_x
+ 1 and so on). On an empty model the bounds still hold their initial
float('inf')/float('-inf') values, each dimension is -inf, and
max(1, int(width_blocks)) raises OverflowError on int(-inf) — modelled as
none. With at least one block the bounds and dimensions are plain Python
ints, and the remaining float steps (the * 0.5 half-height and the
texture-size products) are exact in binary64 throughout the coordinate
range a schematic can hold, so they are computed as exact integer
arithmetic, with int() truncation realised as division (the quantities are
nonnegative). -/
def calculateNativeWindowSize (bounds : Option BBox) (textureSize : ℤ)
    (maxSize : Option (ℤ × ℤ)) : Option (ℤ × ℤ) :=
  match bounds with
  | none => none
  | some bb =>
    let widthBlocks := max 1 (bb.maxX - bb.minX + 1)
    let lengthBlocks := max 1 (bb.maxZ - bb.minZ + 1)
    let heightBlocks := max 1 (bb.maxY - bb.minY + 1)
    let projectedWidth := widthBlocks + lengthBlocks
    let width := projectedWidth * textureSize
    let height := (2 * heightBlocks + max widthBlocks lengthBlocks) * textureSize / 2
    let minWidth : ℤ := 800
    let minHeight : ℤ := 600
    let defaultMaxSize : ℤ := 16384
    let maxWH := maxSize.getD (defaultMaxSize, defaultMaxSize)
    let maxWidth := max minWidth maxWH.1
    let maxHeight := max minHeight maxWH.2
    some (max minWidth (min width maxWidth), max minHeight (min height maxHeight))

/-- Outcome of the model-building, surface, native-window-size and mesh
stages of Render3DManager.render_litematic_3d. -/
inductive StageResult where
  | err (code : ℕ)
  | okSurfaces (surfaces : List Surface) (windowSize : Option (ℤ × ℤ))
deriving Repr

/-- Render3DManager.render_litematic_3d, steps 2-6: build the model (error
2001 when build_from_litematic returns False); build the surfaces; when no
explicit window size was given and native textures are on — the command
layer's default "native" resolution parses to exactly this configuration
(render3d_command._parse_resolution returns window_size None and
native_textures True) — compute the native window size from the model
dimensions, where an empty model raises OverflowError from int(-inf) and
the generic exception handler of the function turns any non-RenderError
exception into RenderError code 2000; finally create the mesh (error 2002
on failure). -/
def renderStage {μ : Type}
    (special : String → List (String × String) → List μ)
    (modelSurf : Pos3 → String → List (String × String) → μ → List Surface)
    (resolve : String → String → Option String)
    (sample : String → String → ℤ × ℤ × ℤ)
    (meshOk : Bool)
    (windowSize : Option (ℤ × ℤ)) (nativeTextures : Bool)
    (textureSize : ℤ) (nativeMaxSize : Option (ℤ × ℤ))
    (records : List (Pos3 × Option BlockInfo)) : StageResult :=
  let built := buildFromLitematic records
  if built.ok = false then .err 2001
  else
    let surfaces := buildSurfaces special modelSurf resolve sample built.blocks
    if windowSize = none ∧ nativeTextures = true then
      match calculateNativeWindowSize built.bounds textureSize nativeMaxSize with
      | none => .err 2000
      | some ws =>
        if createMesh meshOk surfaces = false then .err 2002
        else .okSurfaces surfaces (some ws)
    else
      if createMesh meshOk surfaces = false then .err 2002
      else .okSurfaces surfaces windowSize

/-! ## Animated export state machine (GifExporter stream export) -/

/-- State of the file at the output path. -/
inductive FileState where
  | absent
  | partialFile
  | complete
deriving DecidableEq, Repr

/-- GifExporter.export_gif_stream as a state machine over the output file.
framesEmpty: the frame iterator yields nothing (early False return, file
untouched). imageioResult models _export_with_imageio: none when the
streaming encoder is unavailable (import failure; the file is untouched and
the fallback runs), some true on success, some false when the encoder was
available but raised. pilSaveOk models the fallback native save. failLeft is
the file state a failed encode attempt leaves behind (a partially written
file when the failure happened mid-write); the source performs no removal on
any failure path of this function. -/
def exportGifStream (framesEmpty : Bool) (imageioResult : Option Bool)
    (pilSaveOk : Bool) (failLeft : FileState) (fs : FileState) :
    Bool × FileState :=
  if framesEmpty then (false, fs)
  else
    match imageioResult with
    | some true => (true, .complete)
    | some false => (false, failLeft)
    | none => if pilSaveOk then (true, .complete) else (false, failLeft)

/-- GifExporter.export_gif_with_temp_stream: create a temporary file (it
exists, empty, before the export), run export_gif_stream against it, and on
failure remove the file if it exists. Returns whether a path was returned. -/
def exportGifWithTempStream (framesEmpty : Bool) (imageioResult : Option Bool)
    (pilSaveOk : Bool) (failLeft : FileState) : Bool × FileState :=
  let out := exportGifStream framesEmpty imageioResult pilSaveOk failLeft .partialFile
  if out.1 then (true, out.2) else (false, .absent)

/-! ## Coverage predicates for the greedy-merge claims -/

/-- A grid rectangle covers the grid cell (r, c). -/
def coversG (R : RectG) (r c : ℕ) : Prop :=
  R.row ≤ r ∧ r < R.row + R.height ∧ R.col ≤ c ∧ c < R.col + R.width

instance (R : RectG) (r c : ℕ) : Decidable (coversG R r c) := by
  unfold coversG; infer_instance

/-- A merged world rectangle covers the in-plane unit cell (u, v). -/
def coversCell (R : MergedRect) (uv : ℤ × ℤ) : Prop :=
  R.u0 ≤ uv.1 ∧ uv.1 < R.u0 + R.width ∧ R.v0 ≤ uv.2 ∧ uv.2 < R.v0 + R.height

instance (R : MergedRect) (uv : ℤ × ℤ) : Decidable (coversCell R uv) := by
  unfold coversCell; infer_instance

/-- Two grid rectangles share no grid cell. -/
def rectDisjoint (R1 R2 : RectG) : Prop :=
  ∀ r c, coversG R1 r c → ¬ coversG R2 r c

/-- A well-formed emitted grid rectangle: nonempty in both axes and every
covered grid cell is populated with the rectangle's material key. -/
def goodRect (mask : ℕ → ℕ → Option GridCell) (R : RectG) : Prop :=
  1 ≤ R.width ∧ 1 ≤ R.height ∧
  ∀ r c, coversG R r c → ∃ bid, mask r c = some (R.key, bid)

/-- The unit face of direction face at cell uv of the given plane passes the
culling test: some full-cube voxel projects there and its neighbor along the
face normal is absent from the voxel map. -/
def culledAt (present : Pos3 → Bool) (cubeBlocks : List (Pos3 × String))
    (face : Face) (plane : ℤ) (uv : ℤ × ℤ) : Prop :=
  ∃ pb ∈ cubeBlocks, present (shiftPos pb.1 (faceDir face)) = false ∧
    planeIndexOf face pb.1 = plane ∧ cellIndexOf face pb.1 = uv

instance (present : Pos3 → Bool) (cubeBlocks : List (Pos3 × String))
    (face : Face) (plane : ℤ) (uv : ℤ × ℤ) :
    Decidable (culledAt present cubeBlocks face plane uv) := by
  unfold culledAt; infer_instance

/-- The UV pairs of an emitted surface record (empty for flat-colored quads). -/
def surfaceUVs : Surface → List (ℚ × ℚ)
  | .textured _ uvs _ _ _ _ => uvs
  | .colored _ _ _ _ => []

end Litematic

namespace Litematic

/-! # Theorems -/

/-! ## C10: estimate_scaled_size guards -/

/-- Claim C10: for every width, height and byte budget, estimate_scaled_size
with frame_count ≤ 0 returns no-resize (None) rather than dividing by the
frame count or raising, and when it does return new dimensions both are at
least 1 pixel. -/
theorem claim_C10 (w h : ℕ) (fc : ℤ) (m : ℕ) :
    (fc ≤ 0 → estimateScaledSize w h fc m = none) ∧
    (∀ a b, estimateScaledSize w h fc m = some (a, b) → 1 ≤ a ∧ 1 ≤ b) := by
  constructor
  · intro hfc
    simp [estimateScaledSize, hfc]
  · intro a b hab
    simp only [estimateScaledSize] at hab
    split_ifs at hab
    · simp only [Option.some.injEq, Prod.mk.injEq] at hab
      omega

/-- Witness for claim C10 at concrete inputs. -/
theorem claim_C10_witness :
    estimateScaledSize 100 100 (-1) 5 = none ∧
    estimateScaledSize 100 100 10 1 = some (1, 1) ∧ (1 ≤ 1 ∧ 1 ≤ 1) := by
  refine ⟨(claim_C10 100 100 (-1) 5).1 (by decide), by decide, ?_⟩
  exact (claim_C10 100 100 10 1).2 1 1 (by decide)

/-! ## C6: rotation animation poses -/

/-- Claim C6: for every n_frames ≥ 1, the rotation animation mode yields
exactly n_frames camera poses, the i-th (from 0) at azimuth i * 360 / n
around the model center at the fixed elevation; for n_frames = 4 the
azimuths are 0, 90, 180, 270 degrees. -/
theorem claim_C6 (n : ℕ) (elevation : ℚ) (hn : 1 ≤ n) :
    (iterRotationPoses n elevation).length = n ∧
    (∀ i, i < n → (iterRotationPoses n elevation).getD i ⟨0, 0⟩ =
      ⟨(i : ℚ) * (360 / (n : ℚ)), elevation⟩) ∧
    (iterRotationPoses 4 elevation).map (fun p => p.azimuthDeg) =
      [0, 90, 180, 270] := by
  refine ⟨?_, fun i hi => ?_, ?_⟩
  · unfold iterRotationPoses
    rw [List.length_map, List.length_range]
  · unfold iterRotationPoses
    rw [List.getD_eq_getElem?_getD, List.getElem?_map, List.getElem?_range hi]
    rfl
  · unfold iterRotationPoses
    norm_num [List.range_succ]

/-- Witness for claim C6 at n = 4, elevation 30. -/
theorem claim_C6_witness :
    (iterRotationPoses 4 30).length = 4 ∧
    (iterRotationPoses 4 30).map (fun p => p.azimuthDeg) = [0, 90, 180, 270] :=
  ⟨(claim_C6 4 30 (by decide)).1, (claim_C6 4 30 (by decide)).2.2⟩

/-! ## C7 and C8: the wire tint ramp -/

/-- Decimal round trip on the power range used by the tint ramp. -/
theorem strToInt_roundtrip (p : ℤ) (h0 : 0 ≤ p) (h15 : p ≤ 15) :
    strToInt (intToDecimalString p) = some p := by
  interval_cases p <;> rfl

/-- Shape of the wire tint triple on the valid power range: the red channel
is the affine staircase 102 + 51 * p / 5 (whose binary64 evaluation agrees
with the exact value at every power, including the exact landings 153, 204
and 255 at powers 5, 10 and 15) and the blue channel is 0 at every power
(the binary64 value of f * f * 0.6 - 0.7 is negative on the whole range).
Proved by evaluating the binary64 model at each of the 16 powers. -/
theorem wireTint_shape (p : ℤ) (h0 : 0 ≤ p) (h15 : p ≤ 15) :
    wireTint p = some (102 + 51 * p / 5, wireGreen p, 0) := by
  interval_cases p <;> decide

/-- Counterexample to claim C7 as stated: at power 12 — 80 percent of the
maximum, well above "roughly 70 percent" — the green channel is still 0, and
the blue channel is 0 even at maximum power 15: the quadratic blue term
f * f * 0.6 - 0.7 is negative for every f in [0, 1], so blue never becomes
positive at any power. (At power 15 the green channel is 50, not the 51 of
exact rational arithmetic: the program computes int((0.7 - 0.5) * 255) =
int(50.99999999999998...) = 50, because 0.7 is not exactly representable in
binary64.) -/
theorem claim_C7_counterexample :
    wireTint 12 = some (224, 0, 0) ∧ wireTint 15 = some (255, 50, 0) := by
  constructor <;> decide

/-- Claim C7 as amended: over powers 0..15 the red channel is the affine
staircase 102 + 51 * p / 5 with nonzero floor 102, the blue channel is zero
at every power, and the green channel is zero through power 12 and positive
exactly from power 13 on (about 87 percent of maximum; its values are 6, 27
and 50, where the 50 at maximum power reflects the binary64 rounding of
0.7). -/
theorem claim_C7_amended (p : ℤ) (h0 : 0 ≤ p) (h15 : p ≤ 15) :
    wireTint p = some (102 + 51 * p / 5, wireGreen p, 0) ∧
    102 ≤ 102 + 51 * p / 5 ∧
    (0 < wireGreen p ↔ 13 ≤ p) := by
  refine ⟨wireTint_shape p h0 h15, by omega, ?_⟩
  interval_cases p <;> decide

/-- Witness for the amended claim C7 at power 13. -/
theorem claim_C7_amended_witness :
    wireTint 13 = some (102 + 51 * 13 / 5, wireGreen 13, 0) ∧
    (102 : ℤ) ≤ 102 + 51 * 13 / 5 ∧
    (0 < wireGreen 13 ↔ (13 : ℤ) ≤ 13) :=
  claim_C7_amended 13 (by decide) (by decide)

/-- Claim C8: for every pair of powers p1 ≤ p2 in 0..15, the red channel of
the wire tint at p1 is at most the red channel at p2, and the tint colors at
power 0 and power 15 are distinct. -/
theorem claim_C8 (p1 p2 : ℤ) (h0 : 0 ≤ p1) (h12 : p1 ≤ p2) (h15 : p2 ≤ 15) :
    (∃ c1 c2, wireTint p1 = some c1 ∧ wireTint p2 = some c2 ∧ c1.1 ≤ c2.1) ∧
    wireTint 0 ≠ wireTint 15 := by
  refine ⟨⟨_, _, wireTint_shape p1 h0 (by omega),
    wireTint_shape p2 (by omega) h15, ?_⟩, by decide⟩
  show 102 + 51 * p1 / 5 ≤ 102 + 51 * p2 / 5
  omega

/-- Witness for claim C8 at powers 3 and 11. -/
theorem claim_C8_witness :
    (∃ c1 c2, wireTint 3 = some c1 ∧ wireTint 11 = some c2 ∧ c1.1 ≤ c2.1) ∧
    wireTint 0 ≠ wireTint 15 :=
  claim_C8 3 11 (by decide) (by decide) (by decide)

/-! ## C3: empty structures and the model-build error -/

/-- An all-air record list leaves the builder's fold state unchanged. -/
theorem buildFold_air (records : List (Pos3 × Option BlockInfo))
    (hair : ∀ r ∈ records, r.2 = none ∨
      ∃ b, r.2 = some b ∧ b.id = "minecraft:air") :
    ∀ st, records.foldl
      (fun (st : List (Pos3 × BlockInfo) × Option BBox) r =>
        match r.2 with
        | none => st
        | some b =>
          if b.id = "minecraft:air" then st
          else (dictInsertBlocks st.1 r.1 b, some (updateBounds st.2 r.1)))
      st = st := by
  induction records with
  | nil => intro st; rfl
  | cons r rest ih =>
    intro st
    have hr := hair r (List.mem_cons_self r rest)
    have hrest : ∀ r ∈ rest, r.2 = none ∨
        ∃ b, r.2 = some b ∧ b.id = "minecraft:air" :=
      fun x hx => hair x (List.mem_cons_of_mem r hx)
    rcases hr with hnone | ⟨b, hb, hbid⟩
    · rw [List.foldl_cons]
      have : (match r.2 with
        | none => st
        | some b => if b.id = "minecraft:air" then st
          else (dictInsertBlocks st.1 r.1 b, some (updateBounds st.2 r.1))) = st := by
        rw [hnone]
      rw [this]
      exact ih hrest st
    · rw [List.foldl_cons]
      have : (match r.2 with
        | none => st
        | some b => if b.id = "minecraft:air" then st
          else (dictInsertBlocks st.1 r.1 b, some (updateBounds st.2 r.1))) = st := by
        rw [hb]
        simp [hbid]
      rw [this]
      exact ih hrest st

/-- Counterexample to claim C3 as stated: on a structure containing only air
and absent blocks, build_from_litematic reports success (True) — the
model-build error (code 2001) is never raised — and the job aborts instead
with the generic render error 2000 (OverflowError computing the native
window size from the empty model's infinite bounds) under the command
layer's default native resolution, and with the mesh-construction error
2002 when an explicit window size is supplied. -/
theorem claim_C3_counterexample :
    (buildFromLitematic
      [((0, 0, 0), some ⟨"minecraft:air", []⟩), ((1, 0, 0), none)]).ok = true ∧
    renderStage (μ := Unit) (fun _ _ => []) (fun _ _ _ _ => [])
      (fun _ _ => none) (fun _ _ => (0, 0, 0)) true
      none true 16 none
      [((0, 0, 0), some ⟨"minecraft:air", []⟩), ((1, 0, 0), none)] =
      .err 2000 ∧
    renderStage (μ := Unit) (fun _ _ => []) (fun _ _ _ _ => [])
      (fun _ _ => none) (fun _ _ => (0, 0, 0)) true
      (some (800, 600)) true 16 none
      [((0, 0, 0), some ⟨"minecraft:air", []⟩), ((1, 0, 0), none)] =
      .err 2002 := by
  refine ⟨rfl, rfl, rfl⟩

/-- Claim C3 as amended: when the decoded structure contains zero non-empty
voxels, build_from_litematic still reports success (the model-build error
2001 is never raised), and the job aborts with a typed error whose code
depends on the resolution configuration: under the command layer's default
native resolution (no explicit window size, native textures on) the
native-window-size step overflows on the empty model's infinite bounds and
the generic handler raises code 2000 before the mesh stage, and under every
other configuration the empty surface list is rejected by create_mesh with
code 2002. -/
theorem claim_C3_amended {μ : Type}
    (special : String → List (String × String) → List μ)
    (modelSurf : Pos3 → String → List (String × String) → μ → List Surface)
    (resolve : String → String → Option String)
    (sample : String → String → ℤ × ℤ × ℤ)
    (meshOk : Bool)
    (windowSize : Option (ℤ × ℤ)) (nativeTextures : Bool)
    (textureSize : ℤ) (nativeMaxSize : Option (ℤ × ℤ))
    (records : List (Pos3 × Option BlockInfo))
    (hair : ∀ r ∈ records, r.2 = none ∨
      ∃ b, r.2 = some b ∧ b.id = "minecraft:air") :
    (buildFromLitematic records).ok = true ∧
    renderStage special modelSurf resolve sample meshOk windowSize
      nativeTextures textureSize nativeMaxSize records =
      (if windowSize = none ∧ nativeTextures = true then StageResult.err 2000
       else StageResult.err 2002) := by
  have hbuild : buildFromLitematic records = ⟨true, [], none⟩ := by
    unfold buildFromLitematic
    rw [buildFold_air records hair]
  refine ⟨by rw [hbuild], ?_⟩
  unfold renderStage
  rw [hbuild]
  cases windowSize <;> cases nativeTextures <;> rfl

/-- Witness for the amended claim C3 on a concrete all-air record list under
the default native-resolution configuration. -/
theorem claim_C3_amended_witness :
    (buildFromLitematic [((2, 3, 4), some ⟨"minecraft:air", []⟩)]).ok = true ∧
    renderStage (μ := Unit) (fun _ _ => []) (fun _ _ _ _ => [])
      (fun _ _ => some "t") (fun _ _ => (1, 2, 3)) true
      none true 16 none
      [((2, 3, 4), some ⟨"minecraft:air", []⟩)] =
      (if (none : Option (ℤ × ℤ)) = none ∧ true = true then StageResult.err 2000
       else StageResult.err 2002) :=
  claim_C3_amended (fun _ _ => []) (fun _ _ _ _ => [])
    (fun _ _ => some "t") (fun _ _ => (1, 2, 3)) true
    none true 16 none
    [((2, 3, 4), some ⟨"minecraft:air", []⟩)]
    (by intro r hr; simp at hr; right; exact ⟨⟨"minecraft:air", []⟩, by rw [hr], rfl⟩)

/-! ## C4: animated export failure behavior -/

/-- Counterexample to claim C4 as stated: when the streaming encoder is
available but fails mid-write (imageio result False), export_gif_stream
returns failure without attempting any cleanup, so the partially written
file remains at the caller-supplied output path. -/
theorem claim_C4_counterexample :
    exportGifStream false (some false) true .partialFile .absent =
      (false, .partialFile) ∧
    FileState.partialFile ≠ FileState.absent := by
  constructor <;> decide

/-- Claim C4 as amended: the export returns failure whenever neither the
streaming encoder nor the fallback native save succeeds, and the temp-path
entry point export_gif_with_temp_stream removes the file on every failure,
leaving no partially written file at its output path; the direct-path
export_gif_stream, however, performs no cleanup (see the counterexample). -/
theorem claim_C4_amended :
    (∀ (framesEmpty : Bool) (imageioResult : Option Bool) (pilSaveOk : Bool)
       (failLeft fs : FileState),
       imageioResult ≠ some true → pilSaveOk = false →
       (exportGifStream framesEmpty imageioResult pilSaveOk failLeft fs).1 =
         false) ∧
    (∀ (framesEmpty : Bool) (imageioResult : Option Bool) (pilSaveOk : Bool)
       (failLeft : FileState),
       (exportGifWithTempStream framesEmpty imageioResult pilSaveOk
         failLeft).1 = false →
       (exportGifWithTempStream framesEmpty imageioResult pilSaveOk
         failLeft).2 = .absent) := by
  constructor
  · intro framesEmpty imageioResult pilSaveOk failLeft fs hio hpil
    cases framesEmpty with
    | true => rfl
    | false =>
      cases imageioResult with
      | none => simp [exportGifStream, hpil]
      | some b =>
        cases b with
        | true => exact absurd rfl hio
        | false => rfl
  · intro framesEmpty imageioResult pilSaveOk failLeft h
    simp only [exportGifWithTempStream] at h ⊢
    split at h
    · exact absurd h (by simp)
    · split
      · simp_all
      · rfl

/-- Witness for the amended claim C4 at concrete inputs. -/
theorem claim_C4_witness :
    (exportGifStream false (some false) false .partialFile .absent).1 =
      false ∧
    (exportGifWithTempStream false none false .partialFile).2 = .absent :=
  ⟨claim_C4_amended.1 false (some false) false .partialFile .absent
      (by decide) rfl,
   claim_C4_amended.2 false none false .partialFile (by decide)⟩

/-! ## C9: parent-model resolution termination -/

/-- Concrete two-model parent cycle used as C9 witness data: the model
stored under "a" names "b" as parent and vice versa. -/
def cycStore : String → Option ModelData := fun nm =>
  if nm = "a" then some ⟨some "b", none, none, []⟩
  else if nm = "b" then some ⟨some "a", none, none, []⟩ else none

/-- The model stored under "a" in cycStore. -/
def cycA : ModelData := ⟨some "b", none, none, []⟩

/-- The model stored under "b" in cycStore. -/
def cycB : ModelData := ⟨some "a", none, none, []⟩

/-- One-step unfolding equation of the fuel-indexed resolution. -/
theorem resolveFuel_succ (store : String → Option ModelData) (fuel : ℕ)
    (m : ModelData) :
    resolveInheritanceFuel store (fuel + 1) m =
      match m.parent with
      | none => some m
      | some pname =>
        match store (normalizeModelName pname) with
        | none => some m
        | some pdata =>
          match resolveInheritanceFuel store fuel pdata with
          | none => none
          | some pres => some (mergeModelData pres m) := rfl

/-- Claim C9: recursive parent-model resolution terminates for every model
whose chain of parent references is acyclic (ends within finitely many
loads), with missing or unreadable parents returning the child unchanged;
and since no cycle guard exists, resolution recurses without bound on a
chain that never ends: no recursion depth (fuel) suffices. -/
theorem claim_C9 :
    (∀ (store : String → Option ModelData) (n : ℕ) (m : ModelData),
       chainEndsWithin store n m = true →
       ∃ r, resolveInheritanceFuel store (n + 1) m = some r) ∧
    (∀ (store : String → Option ModelData) (m : ModelData) (pname : String),
       m.parent = some pname → store (normalizeModelName pname) = none →
       ∀ fuel, resolveInheritanceFuel store (fuel + 1) m = some m) ∧
    (∀ (store : String → Option ModelData) (m : ModelData),
       (∀ n, chainEndsWithin store n m = false) →
       ∀ fuel, resolveInheritanceFuel store fuel m = none) := by
  refine ⟨?_, ?_, ?_⟩
  · intro store n
    induction n with
    | zero =>
      rintro ⟨mp, mt, me, mo⟩ h
      cases mp with
      | none => exact ⟨⟨none, mt, me, mo⟩, rfl⟩
      | some pname =>
        have hst : store (normalizeModelName pname) = none := by
          simpa [chainEndsWithin, nextParent] using h
        refine ⟨⟨some pname, mt, me, mo⟩, ?_⟩
        rw [resolveFuel_succ]
        dsimp only
        rw [hst]
    | succ n ih =>
      rintro ⟨mp, mt, me, mo⟩ h
      cases mp with
      | none => exact ⟨⟨none, mt, me, mo⟩, rfl⟩
      | some pname =>
        cases hst : store (normalizeModelName pname) with
        | none =>
          refine ⟨⟨some pname, mt, me, mo⟩, ?_⟩
          rw [resolveFuel_succ]
          dsimp only
          rw [hst]
        | some pdata =>
          have h' : chainEndsWithin store n pdata = true := by
            simpa [chainEndsWithin, nextParent, hst] using h
          obtain ⟨r, hr⟩ := ih pdata h'
          refine ⟨mergeModelData r ⟨some pname, mt, me, mo⟩, ?_⟩
          rw [resolveFuel_succ]
          dsimp only
          rw [hst]
          dsimp only
          rw [hr]
  · rintro store ⟨mp, mt, me, mo⟩ pname hm hst fuel
    simp only [] at hm
    subst hm
    rw [resolveFuel_succ]
    dsimp only
    rw [hst]
  · intro store m hcyc fuel
    induction fuel generalizing m with
    | zero => rfl
    | succ fuel ih =>
      obtain ⟨mp, mt, me, mo⟩ := m
      have h0 := hcyc 0
      cases mp with
      | none => simp [chainEndsWithin, nextParent] at h0
      | some pname =>
        cases hst : store (normalizeModelName pname) with
        | none => simp [chainEndsWithin, nextParent, hst] at h0
        | some pdata =>
          have hcyc' : ∀ n, chainEndsWithin store n pdata = false := by
            intro n
            have hn := hcyc (n + 1)
            simpa [chainEndsWithin, nextParent, hst] using hn
          rw [resolveFuel_succ]
          dsimp only
          rw [hst]
          dsimp only
          rw [ih pdata hcyc']

/-- Witness for claim C9: a one-step acyclic chain resolves, a missing
parent returns the child unchanged, and the two-model parent cycle of
cycStore never resolves at any fuel. -/
theorem claim_C9_witness :
    (resolveInheritanceFuel
      (fun nm => if nm = "base" then some ⟨none, none, none, []⟩ else none) 2
      ⟨some "base", none, none, []⟩ ≠ none) ∧
    (resolveInheritanceFuel (fun _ => none) 3
      ⟨some "missing", none, none, []⟩ =
      some ⟨some "missing", none, none, []⟩) ∧
    resolveInheritanceFuel cycStore 7 cycA = none := by
  refine ⟨?_, ?_, ?_⟩
  · obtain ⟨r, hr⟩ := claim_C9.1
      (fun nm => if nm = "base" then some ⟨none, none, none, []⟩ else none) 1
      ⟨some "base", none, none, []⟩ (by rfl)
    rw [hr]
    exact fun hcontra => Option.noConfusion hcontra
  · exact claim_C9.2.1 (fun _ => none) ⟨some "missing", none, none, []⟩
      "missing" rfl rfl 2
  · refine claim_C9.2.2 cycStore cycA ?_ 7
    have key : ∀ n, chainEndsWithin cycStore n cycA = false ∧
        chainEndsWithin cycStore n cycB = false := by
      intro n
      induction n with
      | zero => exact ⟨rfl, rfl⟩
      | succ n ih =>
        exact ⟨show chainEndsWithin cycStore n cycB = false from ih.2,
          show chainEndsWithin cycStore n cycA = false from ih.1⟩
    exact fun n => (key n).1

/-! ## C5: estimate_scaled_size scaling law -/

/-- Soundness of the width-growing loop: it never shrinks the width, and all
cells strictly between the seed column and the final width were accepted by
the ok test. -/
theorem widthLoop_sound (ok : ℕ → Bool) (cols col : ℕ) :
    ∀ (fuel width : ℕ), 1 ≤ width →
    (∀ o, 1 ≤ o → o < width → ok (col + o) = true) →
    1 ≤ widthLoop ok cols col fuel width ∧
    ∀ o, 1 ≤ o → o < widthLoop ok cols col fuel width → ok (col + o) = true := by
  intro fuel
  induction fuel with
  | zero => intro width h1 hok; exact ⟨h1, hok⟩
  | succ fuel ih =>
    intro width h1 hok
    unfold widthLoop
    split
    · rename_i hcond
      simp only [Bool.and_eq_true, decide_eq_true_eq] at hcond
      refine ih (width + 1) (by omega) ?_
      intro o ho1 ho2
      rcases Nat.lt_or_ge o width with hlt | hge
      · exact hok o ho1 hlt
      · have : o = width := by omega
        subst this
        exact hcond.2
    · exact ⟨h1, hok⟩

/-- Soundness of the height-growing loop: it never shrinks the height, and
every cell of every row strictly between the seed row and the final height,
across the full width, was accepted by the ok test. -/
theorem heightLoop_sound (ok2 : ℕ → ℕ → Bool) (rows row col width : ℕ) :
    ∀ (fuel h0 : ℕ), 1 ≤ h0 →
    (∀ k, 1 ≤ k → k < h0 → ∀ o, o < width → ok2 (row + k) (col + o) = true) →
    1 ≤ heightLoop ok2 rows row col width fuel h0 ∧
    ∀ k, 1 ≤ k → k < heightLoop ok2 rows row col width fuel h0 →
      ∀ o, o < width → ok2 (row + k) (col + o) = true := by
  intro fuel
  induction fuel with
  | zero => intro h0 h1 hok; exact ⟨h1, hok⟩
  | succ fuel ih =>
    intro h0 h1 hok
    unfold heightLoop
    split
    · rename_i hcond
      simp only [Bool.and_eq_true, decide_eq_true_eq] at hcond
      have hrow : ∀ o, o < width → ok2 (row + h0) (col + o) = true := by
        intro o ho
        have := hcond.2
        unfold heightOk at this
        rw [List.all_eq_true] at this
        exact this o (List.mem_range.2 ho)
      refine ih (h0 + 1) (by omega) ?_
      intro k hk1 hk2 o ho
      rcases Nat.lt_or_ge k h0 with hlt | hge
      · exact hok k hk1 hlt o ho
      · have : k = h0 := by omega
        subst this
        exact hrow o ho
    · exact ⟨h1, hok⟩

/-- The ok test of the scan accepts exactly the unvisited populated cells
carrying the seed's material key. -/
theorem cellOk_iff (mask : ℕ → ℕ → Option GridCell) (visited : List (ℕ × ℕ))
    (key : CubeKey) (r c : ℕ) :
    cellOk mask visited key r c = true ↔
      (∃ bid, mask r c = some (key, bid)) ∧ (r, c) ∉ visited := by
  unfold cellOk
  cases hm : mask r c with
  | none => simp
  | some cell =>
    obtain ⟨k, bid⟩ := cell
    simp only [Bool.and_eq_true, decide_eq_true_eq]
    constructor
    · rintro ⟨rfl, hv⟩
      exact ⟨⟨bid, rfl⟩, hv⟩
    · rintro ⟨⟨bid2, hb⟩, hv⟩
      cases hb
      exact ⟨rfl, hv⟩

/-- Membership in the visited cells of one rectangle. -/
theorem mem_rectCells {row col height width r c : ℕ} :
    (r, c) ∈ rectCells row col height width ↔
      row ≤ r ∧ r < row + height ∧ col ≤ c ∧ c < col + width := by
  unfold rectCells
  simp only [List.mem_flatMap, List.mem_range, List.mem_map, Prod.mk.injEq]
  constructor
  · rintro ⟨i, hi, j, hj, h1, h2⟩
    omega
  · intro h
    exact ⟨r - row, by omega, c - col, by omega, by omega, by omega⟩

/-- Membership in the row-major scan order. -/
theorem mem_gridPositions {rows cols r c : ℕ} :
    (r, c) ∈ gridPositions rows cols ↔ r < rows ∧ c < cols := by
  unfold gridPositions
  simp only [List.mem_flatMap, List.mem_range, List.mem_map, Prod.mk.injEq]
  constructor
  · rintro ⟨i, hi, j, hj, h1, h2⟩
    omega
  · intro h
    exact ⟨r, by omega, c, by omega, rfl, rfl⟩


/-- One-step unfolding of the scan loop at a cons cell, with the source's
local bindings expanded. -/
theorem scanGo_cons (mask : ℕ → ℕ → Option GridCell) (rows cols r c : ℕ)
    (rest : List (ℕ × ℕ)) (visited : List (ℕ × ℕ)) (rects : List RectG) :
    scanGo mask rows cols ((r, c) :: rest) visited rects =
      match mask r c with
      | none => scanGo mask rows cols rest visited rects
      | some cell =>
        if (r, c) ∈ visited then scanGo mask rows cols rest visited rects
        else
          scanGo mask rows cols rest
            (visited ++ rectCells r c
              (heightLoop (fun rr cc => cellOk mask visited cell.1 rr cc)
                rows r c
                (widthLoop (fun cc => cellOk mask visited cell.1 r cc)
                  cols c cols 1) rows 1)
              (widthLoop (fun cc => cellOk mask visited cell.1 r cc)
                cols c cols 1))
            (rects ++ [⟨r, c,
              widthLoop (fun cc => cellOk mask visited cell.1 r cc)
                cols c cols 1,
              heightLoop (fun rr cc => cellOk mask visited cell.1 rr cc)
                rows r c
                (widthLoop (fun cc => cellOk mask visited cell.1 r cc)
                  cols c cols 1) rows 1,
              cell.1, cell.2⟩]) := rfl

/-- Invariant preservation of the greedy scan: visited cells are exactly the
cells of emitted rectangles, emitted rectangles are well formed and pairwise
disjoint, visited cells persist, and every populated scanned position ends
visited. -/
theorem scanGo_spec (mask : ℕ → ℕ → Option GridCell) (rows cols : ℕ) :
    ∀ (L : List (ℕ × ℕ)) (visited : List (ℕ × ℕ)) (rects : List RectG),
    (∀ p : ℕ × ℕ, p ∈ visited ↔ ∃ R ∈ rects, coversG R p.1 p.2) →
    (∀ R ∈ rects, goodRect mask R) →
    List.Pairwise rectDisjoint rects →
    (∀ p : ℕ × ℕ, p ∈ (scanGo mask rows cols L visited rects).1 ↔
        ∃ R ∈ (scanGo mask rows cols L visited rects).2, coversG R p.1 p.2) ∧
    (∀ R ∈ (scanGo mask rows cols L visited rects).2, goodRect mask R) ∧
    List.Pairwise rectDisjoint (scanGo mask rows cols L visited rects).2 ∧
    (∀ p ∈ visited, p ∈ (scanGo mask rows cols L visited rects).1) ∧
    (∀ p ∈ L, mask p.1 p.2 ≠ none →
      p ∈ (scanGo mask rows cols L visited rects).1) := by
  intro L
  induction L with
  | nil =>
    intro visited rects hinv hgood hpw
    exact ⟨hinv, hgood, hpw, fun p hp => hp, by simp⟩
  | cons head rest ih =>
    obtain ⟨r, c⟩ := head
    intro visited rects hinv hgood hpw
    cases hm : mask r c with
    | none =>
      have hred : scanGo mask rows cols ((r, c) :: rest) visited rects =
          scanGo mask rows cols rest visited rects := by
        rw [scanGo_cons, hm]
      rw [hred]
      obtain ⟨h1, h2, h3, h4, h5⟩ := ih visited rects hinv hgood hpw
      refine ⟨h1, h2, h3, h4, ?_⟩
      intro p hp hmp
      rcases List.mem_cons.mp hp with rfl | hp'
      · exact absurd hm hmp
      · exact h5 p hp' hmp
    | some cell =>
      by_cases hv : (r, c) ∈ visited
      · have hred : scanGo mask rows cols ((r, c) :: rest) visited rects =
            scanGo mask rows cols rest visited rects := by
          rw [scanGo_cons, hm]
          simp only [hv, if_true]
        rw [hred]
        obtain ⟨h1, h2, h3, h4, h5⟩ := ih visited rects hinv hgood hpw
        refine ⟨h1, h2, h3, h4, ?_⟩
        intro p hp hmp
        rcases List.mem_cons.mp hp with rfl | hp'
        · exact h4 _ hv
        · exact h5 p hp' hmp
      · -- the emit case: grow a rectangle at the seed (r, c)
        have wlem := widthLoop_sound (fun cc => cellOk mask visited cell.1 r cc)
          cols c cols 1 (le_refl 1) (by intro o ho1 ho2; omega)
        have hlem := heightLoop_sound
          (fun rr cc => cellOk mask visited cell.1 rr cc) rows r c
          (widthLoop (fun cc => cellOk mask visited cell.1 r cc) cols c cols 1)
          rows 1 (le_refl 1) (by intro k hk1 hk2; omega)
        set w := widthLoop (fun cc => cellOk mask visited cell.1 r cc)
          cols c cols 1 with hwdef
        set h := heightLoop (fun rr cc => cellOk mask visited cell.1 rr cc)
          rows r c w rows 1 with hhdef
        have hred : scanGo mask rows cols ((r, c) :: rest) visited rects =
            scanGo mask rows cols rest (visited ++ rectCells r c h w)
              (rects ++ [⟨r, c, w, h, cell.1, cell.2⟩]) := by
          rw [scanGo_cons, hm]
          simp only [hv, if_false]
        have hA : ∀ rr cc, coversG ⟨r, c, w, h, cell.1, cell.2⟩ rr cc →
            (∃ bid, mask rr cc = some (cell.1, bid)) ∧ (rr, cc) ∉ visited := by
          intro rr cc hcov
          obtain ⟨hc1, hc2, hc3, hc4⟩ := hcov
          dsimp only at hc1 hc2 hc3 hc4
          rcases Nat.eq_or_lt_of_le hc1 with rfl | hltr
          · rcases Nat.eq_or_lt_of_le hc3 with rfl | hltc
            · exact ⟨⟨cell.2, by rw [hm]⟩, hv⟩
            · have hok := wlem.2 (cc - c) (by omega) (by omega)
              rw [show c + (cc - c) = cc from by omega] at hok
              exact (cellOk_iff mask visited cell.1 r cc).1 hok
          · have hok := hlem.2 (rr - r) (by omega) (by omega) (cc - c) (by omega)
            rw [show r + (rr - r) = rr from by omega,
                show c + (cc - c) = cc from by omega] at hok
            exact (cellOk_iff mask visited cell.1 rr cc).1 hok
        have hinv' : ∀ p : ℕ × ℕ, p ∈ visited ++ rectCells r c h w ↔
            ∃ R' ∈ rects ++ [(⟨r, c, w, h, cell.1, cell.2⟩ : RectG)],
              coversG R' p.1 p.2 := by
          rintro ⟨pr, pc⟩
          rw [List.mem_append, hinv (pr, pc), mem_rectCells]
          constructor
          · rintro (⟨R', hR', hcov⟩ | hrect)
            · exact ⟨R', List.mem_append_left _ hR', hcov⟩
            · refine ⟨⟨r, c, w, h, cell.1, cell.2⟩,
                List.mem_append_right _ (List.mem_singleton_self _), ?_⟩
              exact ⟨hrect.1, hrect.2.1, hrect.2.2.1, hrect.2.2.2⟩
          · rintro ⟨R', hR', hcov⟩
            rcases List.mem_append.mp hR' with hR'' | hR''
            · exact Or.inl ⟨R', hR'', hcov⟩
            · rw [List.mem_singleton] at hR''
              rw [hR''] at hcov
              exact Or.inr ⟨hcov.1, hcov.2.1, hcov.2.2.1, hcov.2.2.2⟩
        have hgood' : ∀ R' ∈ rects ++ [(⟨r, c, w, h, cell.1, cell.2⟩ : RectG)],
            goodRect mask R' := by
          intro R' hR'
          rcases List.mem_append.mp hR' with hR'' | hR''
          · exact hgood R' hR''
          · rw [List.mem_singleton] at hR''
            rw [hR'']
            exact ⟨wlem.1, hlem.1, fun rr cc hcov => (hA rr cc hcov).1⟩
        have hpw' : List.Pairwise rectDisjoint
            (rects ++ [(⟨r, c, w, h, cell.1, cell.2⟩ : RectG)]) := by
          rw [List.pairwise_append]
          refine ⟨hpw, List.pairwise_singleton _ _, ?_⟩
          intro R1 hR1 R2 hR2
          rw [List.mem_singleton] at hR2
          rw [hR2]
          intro rr cc hcov1 hcov2
          exact (hA rr cc hcov2).2 ((hinv (rr, cc)).2 ⟨R1, hR1, hcov1⟩)
        obtain ⟨h1, h2, h3, h4, h5⟩ := ih (visited ++ rectCells r c h w)
          (rects ++ [⟨r, c, w, h, cell.1, cell.2⟩]) hinv' hgood' hpw'
        rw [hred]
        refine ⟨h1, h2, h3,
          fun p hp => h4 p (List.mem_append_left _ hp), ?_⟩
        intro p hp hmp
        rcases List.mem_cons.mp hp with rfl | hp'
        · apply h4
          apply List.mem_append_right
          rw [mem_rectCells]
          refine ⟨le_refl r, ?_, le_refl c, ?_⟩
          · have := hlem.1
            omega
          · have := wlem.1
            omega
        · exact h5 p hp' hmp

/-- In a pairwise-disjoint rectangle list, a covered cell is counted exactly
once. -/
theorem countP_covers_eq_one {rects : List RectG}
    (hpw : List.Pairwise rectDisjoint rects) {R : RectG} (hR : R ∈ rects)
    {r c : ℕ} (hc : coversG R r c) :
    rects.countP (fun R' => decide (coversG R' r c)) = 1 := by
  induction rects with
  | nil => cases hR
  | cons hd tl ih =>
    rw [List.pairwise_cons] at hpw
    rcases List.mem_cons.mp hR with rfl | hR'
    · rw [List.countP_cons]
      have htl : tl.countP (fun R' => decide (coversG R' r c)) = 0 := by
        rw [List.countP_eq_zero]
        intro R' hR'
        simp only [decide_eq_true_eq]
        exact hpw.1 R' hR' r c hc
      rw [htl]
      simp [hc]
    · rw [List.countP_cons]
      have hhd : ¬ coversG hd r c := fun hcontra =>
        hpw.1 R hR' r c hcontra hc
      rw [ih hpw.2 hR']
      simp [hhd]

/-- The grid-level partition property of the greedy scan started on the
row-major order with empty state. -/
theorem greedy_grid_partition (mask : ℕ → ℕ → Option GridCell)
    (rows cols : ℕ) :
    (∀ R ∈ (scanGo mask rows cols (gridPositions rows cols) [] []).2,
      goodRect mask R) ∧
    List.Pairwise rectDisjoint
      (scanGo mask rows cols (gridPositions rows cols) [] []).2 ∧
    (∀ r c, r < rows → c < cols → mask r c ≠ none →
      ∃ R ∈ (scanGo mask rows cols (gridPositions rows cols) [] []).2,
        coversG R r c) := by
  have hspec := scanGo_spec mask rows cols (gridPositions rows cols) [] []
    (by simp) (by simp) (by simp)
  obtain ⟨h1, h2, h3, _, h5⟩ := hspec
  refine ⟨h2, h3, ?_⟩
  intro r c hr hc hm
  have := h5 (r, c) (mem_gridPositions.2 ⟨hr, hc⟩) hm
  exact (h1 (r, c)).1 this

/-- listMin bounds every member from below. -/
theorem listMin_le : ∀ (l : List ℤ) (x : ℤ), x ∈ l → listMin l ≤ x
  | [y], x, hx => by
    rw [List.mem_singleton] at hx
    rw [hx]
    exact le_refl y
  | y :: z :: rest, x, hx => by
    rcases List.mem_cons.mp hx with rfl | h
    · exact min_le_left _ _
    · exact le_trans (min_le_right _ _) (listMin_le (z :: rest) x h)

/-- listMax bounds every member from above. -/
theorem le_listMax : ∀ (l : List ℤ) (x : ℤ), x ∈ l → x ≤ listMax l
  | [y], x, hx => by
    rw [List.mem_singleton] at hx
    rw [hx]
    exact le_refl y
  | y :: z :: rest, x, hx => by
    rcases List.mem_cons.mp hx with rfl | h
    · exact le_max_left _ _
    · exact le_trans (le_listMax (z :: rest) x h) (le_max_right _ _)

/-- Characterisation of the plane cells dict entries. -/
theorem mem_planeCells {resolve : String → String → Option String}
    {sample : String → String → ℤ × ℤ × ℤ} {present : Pos3 → Bool}
    {cubeBlocks : List (Pos3 × String)} {face : Face} {plane : ℤ}
    {uv : ℤ × ℤ} {v : GridCell} :
    (uv, v) ∈ planeCells resolve sample present cubeBlocks face plane ↔
      ∃ pb ∈ cubeBlocks, present (shiftPos pb.1 (faceDir face)) = false ∧
        planeIndexOf face pb.1 = plane ∧ cellIndexOf face pb.1 = uv ∧
        v = (getCubeFaceKey resolve sample pb.2 face, pb.2) := by
  unfold planeCells
  rw [List.mem_filterMap]
  constructor
  · rintro ⟨pb, hpb, heq⟩
    split_ifs at heq with h1 h2
    · rw [Option.some_inj] at heq
      rw [Prod.mk.injEq] at heq
      refine ⟨pb, hpb, ?_, h2, heq.1, heq.2.symm⟩
      cases hpres : present (shiftPos pb.1 (faceDir face))
      · rfl
      · exact absurd hpres h1
  · rintro ⟨pb, hpb, hpres, hplane, hcell, hval⟩
    refine ⟨pb, hpb, ?_⟩
    rw [hpres, if_neg (by simp), hplane, if_pos rfl, hcell, hval]

/-- Within a fixed face direction and plane, the in-plane cell determines
the voxel position. -/
theorem cellIndex_inj (face : Face) (p1 p2 : Pos3)
    (hplane : planeIndexOf face p1 = planeIndexOf face p2)
    (hcell : cellIndexOf face p1 = cellIndexOf face p2) : p1 = p2 := by
  obtain ⟨x1, y1, z1⟩ := p1
  obtain ⟨x2, y2, z2⟩ := p2
  cases face <;>
    simp only [planeIndexOf, cellIndexOf, Prod.mk.injEq] at hplane hcell ⊢ <;>
    omega

/-- Two entries of a list with duplicate-free keys that share a key are the
same entry. -/
theorem eq_of_fst_eq_of_nodup {α β : Type} :
    ∀ {l : List (α × β)}, (l.map Prod.fst).Nodup →
    ∀ {a b : α × β}, a ∈ l → b ∈ l → a.1 = b.1 → a = b := by
  intro l
  induction l with
  | nil => intro _ a b ha; cases ha
  | cons x t ih =>
    intro hnd a b ha hb hfst
    rw [List.map_cons, List.nodup_cons] at hnd
    rcases List.mem_cons.mp ha with rfl | ha'
    · rcases List.mem_cons.mp hb with rfl | hb'
      · rfl
      · exact absurd (hfst ▸ List.mem_map_of_mem Prod.fst hb') hnd.1
    · rcases List.mem_cons.mp hb with rfl | hb'
      · exact absurd (hfst ▸ List.mem_map_of_mem Prod.fst ha') hnd.1
      · exact ih hnd.2 ha' hb' hfst

/-- First-match lookup finds the value of a key whose value is unique. -/
theorem assocFind_eq_some {α β : Type} [DecidableEq α] :
    ∀ {l : List (α × β)} {k : α} {v : β}, (k, v) ∈ l →
    (∀ v', (k, v') ∈ l → v' = v) → assocFind l k = some v := by
  intro l
  induction l with
  | nil => intro k v h; cases h
  | cons kv t ih =>
    intro k v hm huniq
    unfold assocFind
    split
    · rename_i hk
      rw [Option.some_inj]
      apply huniq
      rw [List.mem_cons]
      left
      rw [hk]
    · rename_i hk
      rcases List.mem_cons.mp hm with heq | hm'
      · exact absurd (congrArg Prod.fst heq) hk
      · exact ih hm' fun v' hv' => huniq v' (List.mem_cons_of_mem _ hv')

/-- First-match lookup only returns entries of the list. -/
theorem assocFind_mem {α β : Type} [DecidableEq α] :
    ∀ {l : List (α × β)} {k : α} {v : β},
    assocFind l k = some v → (k, v) ∈ l := by
  intro l
  induction l with
  | nil => intro k v h; cases h
  | cons kv t ih =>
    intro k v h
    unfold assocFind at h
    split at h
    · rename_i hk
      rw [Option.some_inj] at h
      rw [List.mem_cons]
      left
      rw [hk, ← h]
    · exact List.mem_cons_of_mem _ (ih h)


/-- Unfolding of greedyMergePlane on a nonempty cells dict. -/
theorem greedyMergePlane_eq (cells : List ((ℤ × ℤ) × GridCell))
    (hne : ¬ (cells.isEmpty = true)) :
    greedyMergePlane cells =
      (scanGo (gridMask cells (listMin (cells.map fun x => x.1.1))
          (listMin (cells.map fun x => x.1.2))
          ((listMax (cells.map fun x => x.1.2) -
            listMin (cells.map fun x => x.1.2) + 1).toNat)
          ((listMax (cells.map fun x => x.1.1) -
            listMin (cells.map fun x => x.1.1) + 1).toNat))
        ((listMax (cells.map fun x => x.1.2) -
          listMin (cells.map fun x => x.1.2) + 1).toNat)
        ((listMax (cells.map fun x => x.1.1) -
          listMin (cells.map fun x => x.1.1) + 1).toNat)
        (gridPositions
          ((listMax (cells.map fun x => x.1.2) -
            listMin (cells.map fun x => x.1.2) + 1).toNat)
          ((listMax (cells.map fun x => x.1.1) -
            listMin (cells.map fun x => x.1.1) + 1).toNat)) [] []).2.map
        (rectToWorld (listMin (cells.map fun x => x.1.1))
          (listMin (cells.map fun x => x.1.2))) := by
  unfold greedyMergePlane
  rw [if_neg hne]

/-- Partition property of the greedy scan over the grid window
[uMin, uMin + cols) x [vMin, vMin + rows) containing all cells. -/
theorem gridMask_partition (cells : List ((ℤ × ℤ) × GridCell))
    (huniq : ∀ (uv : ℤ × ℤ) (v1 v2 : GridCell),
      (uv, v1) ∈ cells → (uv, v2) ∈ cells → v1 = v2)
    (uMin vMin : ℤ) (rows cols : ℕ)
    (hb : ∀ (uv : ℤ × ℤ) (v : GridCell), (uv, v) ∈ cells →
      uMin ≤ uv.1 ∧ uv.1 < uMin + cols ∧ vMin ≤ uv.2 ∧ uv.2 < vMin + rows) :
    (∀ (uv : ℤ × ℤ) (v : GridCell), (uv, v) ∈ cells →
      ((scanGo (gridMask cells uMin vMin rows cols) rows cols
          (gridPositions rows cols) [] []).2.map
        (rectToWorld uMin vMin)).countP
          (fun R => decide (coversCell R uv)) = 1) ∧
    (∀ uv : ℤ × ℤ, (∀ v : GridCell, (uv, v) ∉ cells) →
      ((scanGo (gridMask cells uMin vMin rows cols) rows cols
          (gridPositions rows cols) [] []).2.map
        (rectToWorld uMin vMin)).countP
          (fun R => decide (coversCell R uv)) = 0) ∧
    (∀ R ∈ (scanGo (gridMask cells uMin vMin rows cols) rows cols
          (gridPositions rows cols) [] []).2.map (rectToWorld uMin vMin),
      ∀ uv : ℤ × ℤ, coversCell R uv →
      ∃ v : GridCell, (uv, v) ∈ cells ∧ v.1 = R.key) := by
  obtain ⟨hgood, hpw, hcover⟩ :=
    greedy_grid_partition (gridMask cells uMin vMin rows cols) rows cols
  have hmask_of_mem : ∀ {uv : ℤ × ℤ} {v : GridCell}, (uv, v) ∈ cells →
      gridMask cells uMin vMin rows cols
        ((uv.2 - vMin).toNat) ((uv.1 - uMin).toNat) = some v := by
    intro uv v h
    obtain ⟨b1, b2, b3, b4⟩ := hb uv v h
    unfold gridMask
    rw [if_pos (by constructor <;> omega)]
    rw [show (uMin + (((uv.1 - uMin).toNat : ℕ) : ℤ),
        vMin + (((uv.2 - vMin).toNat : ℕ) : ℤ)) = uv from by
      obtain ⟨u1, u2⟩ := uv
      rw [Prod.mk.injEq]
      simp only at b1 b2 b3 b4
      constructor <;> omega]
    exact assocFind_eq_some h fun v' h' => huniq _ _ _ h' h
  have hmem_of_mask : ∀ {r c : ℕ} {v : GridCell},
      gridMask cells uMin vMin rows cols r c = some v →
      ((uMin + (c : ℤ), vMin + (r : ℤ)), v) ∈ cells := by
    intro r c v h
    unfold gridMask at h
    split_ifs at h
    exact assocFind_mem h
  have hprov : ∀ Rg ∈ (scanGo (gridMask cells uMin vMin rows cols) rows cols
        (gridPositions rows cols) [] []).2,
      ∀ uv : ℤ × ℤ, coversCell (rectToWorld uMin vMin Rg) uv →
      ∃ v : GridCell, (uv, v) ∈ cells ∧ v.1 = Rg.key := by
    intro Rg hRg uv hcov
    obtain ⟨hg1, hg2, hg3⟩ := hgood Rg hRg
    obtain ⟨hv1, hv2, hv3, hv4⟩ := hcov
    simp only [rectToWorld] at hv1 hv2 hv3 hv4
    have hgcov : coversG Rg ((uv.2 - vMin).toNat) ((uv.1 - uMin).toNat) := by
      unfold coversG
      omega
    obtain ⟨bid, hbid⟩ := hg3 _ _ hgcov
    have hmem := hmem_of_mask hbid
    rw [show (uMin + (((uv.1 - uMin).toNat : ℕ) : ℤ),
        vMin + (((uv.2 - vMin).toNat : ℕ) : ℤ)) = uv from by
      obtain ⟨u1, u2⟩ := uv
      rw [Prod.mk.injEq]
      simp only at hv1 hv2 hv3 hv4
      constructor <;> omega] at hmem
    exact ⟨(Rg.key, bid), hmem, rfl⟩
  refine ⟨?_, ?_, ?_⟩
  · intro uv v hv
    rw [List.countP_map]
    obtain ⟨b1, b2, b3, b4⟩ := hb uv v hv
    have hm := hmask_of_mem hv
    obtain ⟨Rg, hRg, hgc⟩ := hcover ((uv.2 - vMin).toNat)
      ((uv.1 - uMin).toNat) (by omega) (by omega)
      (by rw [hm]; exact fun hcontra => Option.noConfusion hcontra)
    have hcong : ∀ Rg' ∈ (scanGo (gridMask cells uMin vMin rows cols) rows
          cols (gridPositions rows cols) [] []).2,
        ((fun R => decide (coversCell R uv)) ∘ rectToWorld uMin vMin) Rg' =
          true ↔
        (fun R' => decide
          (coversG R' ((uv.2 - vMin).toNat) ((uv.1 - uMin).toNat))) Rg' =
          true := by
      intro Rg' hRg'
      simp only [Function.comp_apply, decide_eq_true_eq]
      unfold coversCell coversG rectToWorld
      simp only
      omega
    rw [List.countP_congr hcong]
    exact countP_covers_eq_one hpw hRg hgc
  · intro uv hnone
    rw [List.countP_map, List.countP_eq_zero]
    intro Rg hRg
    simp only [Function.comp_apply, decide_eq_true_eq]
    intro hcov
    obtain ⟨v, hvmem, _⟩ := hprov Rg hRg uv hcov
    exact hnone v hvmem
  · intro R hR uv hcov
    obtain ⟨Rg, hRg, rfl⟩ := List.mem_map.mp hR
    exact hprov Rg hRg uv hcov

/-- The partition property of _greedy_merge_plane over an arbitrary cells
dict with unambiguous cell values: every populated cell is covered by
exactly one merged rectangle, no unpopulated cell is covered, and every
cell covered by a rectangle is populated with the rectangle's key. -/
theorem greedyMergePlane_partition (cells : List ((ℤ × ℤ) × GridCell))
    (huniq : ∀ (uv : ℤ × ℤ) (v1 v2 : GridCell),
      (uv, v1) ∈ cells → (uv, v2) ∈ cells → v1 = v2) :
    (∀ (uv : ℤ × ℤ) (v : GridCell), (uv, v) ∈ cells →
      (greedyMergePlane cells).countP (fun R => decide (coversCell R uv)) = 1) ∧
    (∀ uv : ℤ × ℤ, (∀ v : GridCell, (uv, v) ∉ cells) →
      (greedyMergePlane cells).countP (fun R => decide (coversCell R uv)) = 0) ∧
    (∀ R ∈ greedyMergePlane cells, ∀ uv : ℤ × ℤ, coversCell R uv →
      ∃ v : GridCell, (uv, v) ∈ cells ∧ v.1 = R.key) := by
  by_cases hemp : cells.isEmpty = true
  · have hc : cells = [] := List.isEmpty_iff.mp hemp
    subst hc
    refine ⟨fun uv v hv => absurd hv (List.not_mem_nil _),
      fun uv _ => rfl, fun R hR => absurd hR (List.not_mem_nil _)⟩
  · have hbase := gridMask_partition cells huniq
      (listMin (cells.map fun x => x.1.1)) (listMin (cells.map fun x => x.1.2))
      ((listMax (cells.map fun x => x.1.2) -
        listMin (cells.map fun x => x.1.2) + 1).toNat)
      ((listMax (cells.map fun x => x.1.1) -
        listMin (cells.map fun x => x.1.1) + 1).toNat)
      (by
        intro uv v h
        have h1 := listMin_le _ _ (List.mem_map_of_mem (fun x => x.1.1) h)
        have h2 := le_listMax _ _ (List.mem_map_of_mem (fun x => x.1.1) h)
        have h3 := listMin_le _ _ (List.mem_map_of_mem (fun x => x.1.2) h)
        have h4 := le_listMax _ _ (List.mem_map_of_mem (fun x => x.1.2) h)
        simp only at h1 h2 h3 h4
        refine ⟨h1, ?_, h3, ?_⟩ <;> omega)
    rw [greedyMergePlane_eq cells hemp]
    exact hbase

/-- Claim C1: for every voxel-map presence predicate, set of plain
full-cube voxels (with voxel positions unique, as dict keys are), texture
environment, face direction and plane, the greedy-merged quads emitted for
that plane exactly partition the culled-in unit faces: every unit face
passing the culling test (neighbor along the face normal absent) is covered
by exactly one merged rectangle, no two merged rectangles overlap (no cell
is counted twice), no rectangle covers a non-culled cell, and every cell a
rectangle covers carries the rectangle's material key (resolved texture
name or shaded flat color of its block). -/
theorem claim_C1 (resolve : String → String → Option String)
    (sample : String → String → ℤ × ℤ × ℤ)
    (present : Pos3 → Bool) (cubeBlocks : List (Pos3 × String))
    (face : Face) (plane : ℤ)
    (hnodup : (cubeBlocks.map Prod.fst).Nodup) :
    (∀ uv : ℤ × ℤ, culledAt present cubeBlocks face plane uv →
      (mergeFacePlaneRects resolve sample present cubeBlocks face
        plane).countP (fun R => decide (coversCell R uv)) = 1) ∧
    (∀ uv : ℤ × ℤ, ¬ culledAt present cubeBlocks face plane uv →
      (mergeFacePlaneRects resolve sample present cubeBlocks face
        plane).countP (fun R => decide (coversCell R uv)) = 0) ∧
    (∀ R ∈ mergeFacePlaneRects resolve sample present cubeBlocks face plane,
      ∀ uv : ℤ × ℤ, coversCell R uv →
      ∃ pb ∈ cubeBlocks, present (shiftPos pb.1 (faceDir face)) = false ∧
        planeIndexOf face pb.1 = plane ∧ cellIndexOf face pb.1 = uv ∧
        R.key = getCubeFaceKey resolve sample pb.2 face) := by
  have huniqc : ∀ (uv : ℤ × ℤ) (v1 v2 : GridCell),
      (uv, v1) ∈ planeCells resolve sample present cubeBlocks face plane →
      (uv, v2) ∈ planeCells resolve sample present cubeBlocks face plane →
      v1 = v2 := by
    intro uv v1 v2 h1 h2
    rw [mem_planeCells] at h1 h2
    obtain ⟨pb1, hpb1, hpres1, hplane1, hcell1, hval1⟩ := h1
    obtain ⟨pb2, hpb2, hpres2, hplane2, hcell2, hval2⟩ := h2
    have hpos : pb1.1 = pb2.1 :=
      cellIndex_inj face pb1.1 pb2.1 (by rw [hplane1, hplane2])
        (by rw [hcell1, hcell2])
    have heq : pb1 = pb2 := eq_of_fst_eq_of_nodup hnodup hpb1 hpb2 hpos
    rw [hval1, hval2, heq]
  obtain ⟨part1, part2, part3⟩ := greedyMergePlane_partition
    (planeCells resolve sample present cubeBlocks face plane) huniqc
  have hculled_iff : ∀ uv : ℤ × ℤ,
      culledAt present cubeBlocks face plane uv ↔
      ∃ v : GridCell,
        (uv, v) ∈ planeCells resolve sample present cubeBlocks face plane := by
    intro uv
    constructor
    · rintro ⟨pb, hpb, hpres, hplane', hcell⟩
      exact ⟨(getCubeFaceKey resolve sample pb.2 face, pb.2),
        mem_planeCells.mpr ⟨pb, hpb, hpres, hplane', hcell, rfl⟩⟩
    · rintro ⟨v, hv⟩
      rw [mem_planeCells] at hv
      obtain ⟨pb, hpb, hpres, hplane', hcell, _⟩ := hv
      exact ⟨pb, hpb, hpres, hplane', hcell⟩
  refine ⟨?_, ?_, ?_⟩
  · intro uv hc
    obtain ⟨v, hv⟩ := (hculled_iff uv).1 hc
    exact part1 uv v hv
  · intro uv hnc
    apply part2
    intro v hv
    exact hnc ((hculled_iff uv).2 ⟨v, hv⟩)
  · intro R hR uv hcov
    obtain ⟨v, hv, hkey⟩ := part3 R hR uv hcov
    rw [mem_planeCells] at hv
    obtain ⟨pb, hpb, hpres, hplane', hcell, hval⟩ := hv
    refine ⟨pb, hpb, hpres, hplane', hcell, ?_⟩
    rw [← hkey, hval]

/-- Witness for claim C1: a 2 x 1 x 1 row of identical stone blocks, top
face, plane 0: the cell under each block is covered exactly once and a far
away cell is covered by no rectangle. -/
theorem claim_C1_witness :
    ((([((0, 0, 0), "minecraft:stone"), ((1, 0, 0), "minecraft:stone")] :
        List (Pos3 × String)).map Prod.fst).Nodup) ∧
    (mergeFacePlaneRects (fun _ _ => some "t") (fun _ _ => (7, 7, 7))
      (fun p => decide (p = ((0, 0, 0) : Pos3)) ||
        decide (p = ((1, 0, 0) : Pos3)))
      [((0, 0, 0), "minecraft:stone"), ((1, 0, 0), "minecraft:stone")]
      Face.top 0).countP (fun R => decide (coversCell R (0, 0))) = 1 ∧
    (mergeFacePlaneRects (fun _ _ => some "t") (fun _ _ => (7, 7, 7))
      (fun p => decide (p = ((0, 0, 0) : Pos3)) ||
        decide (p = ((1, 0, 0) : Pos3)))
      [((0, 0, 0), "minecraft:stone"), ((1, 0, 0), "minecraft:stone")]
      Face.top 0).countP (fun R => decide (coversCell R (5, 5))) = 0 := by
  have h := claim_C1 (fun _ _ => some "t") (fun _ _ => (7, 7, 7))
    (fun p => decide (p = ((0, 0, 0) : Pos3)) ||
      decide (p = ((1, 0, 0) : Pos3)))
    [((0, 0, 0), "minecraft:stone"), ((1, 0, 0), "minecraft:stone")]
    Face.top 0 (by decide)
  exact ⟨by decide, h.1 (0, 0) (by decide), h.2.1 (5, 5) (by decide)⟩


/-! ## C2: UV ranges of emitted quads -/

/-- Linear interpolation with factor 0 or 1 lands on an endpoint. -/
theorem interp_ends (a b t : ℚ) (h : t = 0 ∨ t = 1) :
    a + t * (b - a) = a ∨ a + t * (b - a) = b := by
  rcases h with rfl | rfl
  · left
    ring
  · right
    ring

/-- Every per-vertex UV produced for the corner vertices of a face is a
corner of the UV rectangle. -/
theorem getVertexUVs_corners (f : ModelFace) (fr toC : Vec3) (rect : UvRect) :
    ∀ uv ∈ getVertexUVs f (getFaceVertices f fr toC) fr toC rect,
      (uv.1 = rect.1 ∨ uv.1 = rect.2.2.1) ∧
      (uv.2 = rect.2.1 ∨ uv.2 = rect.2.2.2) := by
  obtain ⟨x1, y1, z1⟩ := fr
  obtain ⟨x2, y2, z2⟩ := toC
  obtain ⟨u1, v1, u2, v2⟩ := rect
  cases f <;>
  · intro uv huv
    simp only [getFaceVertices, getVertexUVs, List.map_cons, List.map_nil,
      List.mem_cons, List.not_mem_nil, or_false] at huv
    rcases huv with rfl | rfl | rfl | rfl <;>
    · dsimp only
      refine ⟨interp_ends _ _ _ ?_, interp_ends _ _ _ ?_⟩ <;>
      · rcases eq_or_ne (x2 - x1) 0 with h1 | h1 <;>
        rcases eq_or_ne (y2 - y1) 0 with h2 | h2 <;>
        rcases eq_or_ne (z2 - z1) 0 with h3 | h3 <;>
        simp [h1, h2, h3, sub_self, zero_div, div_self]

/-- UV rotation maps UV-rectangle corners to UV-rectangle corners. -/
theorem applyUvRotation_corners (uvs : List (ℚ × ℚ)) (rect : UvRect)
    (rot : ℤ)
    (hc : ∀ uv ∈ uvs, (uv.1 = rect.1 ∨ uv.1 = rect.2.2.1) ∧
      (uv.2 = rect.2.1 ∨ uv.2 = rect.2.2.2)) :
    ∀ uv ∈ applyUvRotation uvs rect rot,
      (uv.1 = rect.1 ∨ uv.1 = rect.2.2.1) ∧
      (uv.2 = rect.2.1 ∨ uv.2 = rect.2.2.2) := by
  obtain ⟨u1, v1, u2, v2⟩ := rect
  intro uv huv
  unfold applyUvRotation at huv
  dsimp only at huv
  split at huv
  · exact hc uv huv
  · split at huv
    · exact hc uv huv
    · rename_i hwh
      rw [not_or] at hwh
      rw [List.mem_map] at huv
      obtain ⟨uv0, huv0, rfl⟩ := huv
      obtain ⟨hcu, hcv⟩ := hc uv0 huv0
      dsimp only at hcu hcv ⊢
      have hs : (uv0.1 - u1) / (u2 - u1) = 0 ∨ (uv0.1 - u1) / (u2 - u1) = 1 := by
        rcases hcu with h | h <;> rw [h]
        · left
          simp [sub_self]
        · right
          exact div_self hwh.1
      have ht : (uv0.2 - v1) / (v2 - v1) = 0 ∨ (uv0.2 - v1) / (v2 - v1) = 1 := by
        rcases hcv with h | h <;> rw [h]
        · left
          simp [sub_self]
        · right
          exact div_self hwh.2
      have hneg : ∀ q : ℚ, q = 0 ∨ q = 1 → 1 - q = 0 ∨ 1 - q = 1 := by
        rintro q (rfl | rfl) <;> norm_num
      split_ifs
      all_goals dsimp only
      · exact ⟨interp_ends u1 u2 _ ht, interp_ends v1 v2 _ (hneg _ hs)⟩
      · exact ⟨interp_ends u1 u2 _ (hneg _ hs),
          interp_ends v1 v2 _ (hneg _ ht)⟩
      · exact ⟨interp_ends u1 u2 _ (hneg _ ht), interp_ends v1 v2 _ hs⟩
      · exact ⟨interp_ends u1 u2 _ hs, interp_ends v1 v2 _ ht⟩

/-- Bounds of the normalized UVs of a merged quad with the tiled UV
rectangle (0, 0, 16 w, 16 h). -/
theorem mergedUVs_bounds (uvFace : ModelFace) (fr toC : Vec3) (wq hq : ℚ)
    (hw : 0 ≤ wq) (hh : 0 ≤ hq) :
    ∀ uv ∈ normalizeUVs (getVertexUVs uvFace (getFaceVertices uvFace fr toC)
        fr toC (0, 0, 16 * wq, 16 * hq)),
      0 ≤ uv.1 ∧ uv.1 ≤ wq ∧ 0 ≤ uv.2 ∧ uv.2 ≤ hq := by
  intro uv huv
  unfold normalizeUVs at huv
  rw [List.mem_map] at huv
  obtain ⟨w, hwmem, rfl⟩ := huv
  obtain ⟨hu, hv⟩ :=
    getVertexUVs_corners uvFace fr toC (0, 0, 16 * wq, 16 * hq) w hwmem
  dsimp only at hu hv ⊢
  have h16 : (16 : ℚ) ≠ 0 := by norm_num
  have hval : w.1 / 16 = 0 ∨ w.1 / 16 = wq := by
    rcases hu with h | h <;> rw [h]
    · left
      norm_num
    · right
      rw [div_eq_iff h16]
      ring
  have hval2 : w.2 / 16 = 0 ∨ w.2 / 16 = hq := by
    rcases hv with h | h <;> rw [h]
    · left
      norm_num
    · right
      rw [div_eq_iff h16]
      ring
  rcases hval with h | h <;> rcases hval2 with h' | h' <;> rw [h, h'] <;>
    exact ⟨by linarith, by linarith, by linarith, by linarith⟩

/-- Claim C2 as amended. Per-element model quads: when the face's UV
rectangle lies within the 0..16 texture space, every normalized UV pair
lies in [0,1] x [0,1]. Greedy-merged cube quads: the UV rectangle is scaled
by the merged width and height for tiling, so the UV pairs lie in
[0, width] x [0, height] — outside [0,1] x [0,1] whenever the rectangle
merges more than one block along an axis (see the counterexample). -/
theorem claim_C2_amended :
    (∀ (f : ModelFace) (fr toC : Vec3) (rect : UvRect) (rot : ℤ),
      0 ≤ rect.1 → rect.1 ≤ 16 → 0 ≤ rect.2.1 → rect.2.1 ≤ 16 →
      0 ≤ rect.2.2.1 → rect.2.2.1 ≤ 16 → 0 ≤ rect.2.2.2 → rect.2.2.2 ≤ 16 →
      ∀ uv ∈ modelFaceUVs f fr toC rect rot,
        0 ≤ uv.1 ∧ uv.1 ≤ 1 ∧ 0 ≤ uv.2 ∧ uv.2 ≤ 1) ∧
    (∀ (face : Face) (plane : ℤ) (R : MergedRect),
      ∀ uv ∈ surfaceUVs (emitMergedSurface face plane R),
        0 ≤ uv.1 ∧ uv.1 ≤ (R.width : ℚ) ∧
        0 ≤ uv.2 ∧ uv.2 ≤ (R.height : ℚ)) := by
  constructor
  · intro f fr toC rect rot h1 h2 h3 h4 h5 h6 h7 h8 uv huv
    unfold modelFaceUVs normalizeUVs at huv
    rw [List.mem_map] at huv
    obtain ⟨w, hwmem, rfl⟩ := huv
    have hcorner : (w.1 = rect.1 ∨ w.1 = rect.2.2.1) ∧
        (w.2 = rect.2.1 ∨ w.2 = rect.2.2.2) := by
      by_cases hr : rot % 360 = 0
      · rw [if_pos hr] at hwmem
        exact getVertexUVs_corners f fr toC rect w hwmem
      · rw [if_neg hr] at hwmem
        exact applyUvRotation_corners _ rect rot
          (getVertexUVs_corners f fr toC rect) w hwmem
    obtain ⟨hwu, hwv⟩ := hcorner
    dsimp only
    have hb1 : 0 ≤ w.1 ∧ w.1 ≤ 16 := by
      rcases hwu with h | h <;> rw [h] <;> exact ⟨by linarith, by linarith⟩
    have hb2 : 0 ≤ w.2 ∧ w.2 ≤ 16 := by
      rcases hwv with h | h <;> rw [h] <;> exact ⟨by linarith, by linarith⟩
    refine ⟨div_nonneg hb1.1 (by norm_num), ?_,
      div_nonneg hb2.1 (by norm_num), ?_⟩ <;>
      rw [div_le_one (by norm_num : (0 : ℚ) < 16)]
    · exact hb1.2
    · exact hb2.2
  · intro face plane R uv huv
    cases hkey : R.key with
    | color rgb =>
      cases face <;> simp [emitMergedSurface, hkey, surfaceUVs] at huv
    | tex t =>
      cases face <;>
      · simp only [emitMergedSurface, hkey, surfaceUVs,
          buildMergedSurface] at huv
        exact mergedUVs_bounds _ _ _ (R.width : ℚ) (R.height : ℚ)
          (Nat.cast_nonneg _) (Nat.cast_nonneg _) uv huv


/-- Counterexample to claim C2 as stated: for a 2 x 1 x 1 row of identical
stone blocks, the greedy merge emits one top quad whose UV rectangle is
scaled by the merged width for tiling, so the emitted surface carries the
UV pair (2, 0), which lies outside [0,1] x [0,1]. -/
theorem claim_C2_counterexample :
    emitMergedSurface Face.top 0
      ⟨0, 0, 2, 1, CubeKey.tex "t", "minecraft:stone"⟩ ∈
      mergeFacePlanes (fun _ _ => some "t") (fun _ _ => (7, 7, 7))
        (fun p => decide (p = ((0, 0, 0) : Pos3)) ||
          decide (p = ((1, 0, 0) : Pos3)))
        [((0, 0, 0), "minecraft:stone"), ((1, 0, 0), "minecraft:stone")]
        Face.top 0 ∧
    ((2 : ℚ), (0 : ℚ)) ∈ surfaceUVs (emitMergedSurface Face.top 0
      ⟨0, 0, 2, 1, CubeKey.tex "t", "minecraft:stone"⟩) ∧
    ¬ (((2 : ℚ), (0 : ℚ)).1 ≤ 1 ∧ ((2 : ℚ), (0 : ℚ)).2 ≤ 1 ∧
       0 ≤ ((2 : ℚ), (0 : ℚ)).1 ∧ 0 ≤ ((2 : ℚ), (0 : ℚ)).2) := by
  have hrects : mergeFacePlaneRects (fun _ _ => some "t")
      (fun _ _ => (7, 7, 7))
      (fun p => decide (p = ((0, 0, 0) : Pos3)) ||
        decide (p = ((1, 0, 0) : Pos3)))
      [((0, 0, 0), "minecraft:stone"), ((1, 0, 0), "minecraft:stone")]
      Face.top 0 = [⟨0, 0, 2, 1, CubeKey.tex "t", "minecraft:stone"⟩] := by
    decide
  have hsurf : mergeFacePlanes (fun _ _ => some "t") (fun _ _ => (7, 7, 7))
      (fun p => decide (p = ((0, 0, 0) : Pos3)) ||
        decide (p = ((1, 0, 0) : Pos3)))
      [((0, 0, 0), "minecraft:stone"), ((1, 0, 0), "minecraft:stone")]
      Face.top 0 = [emitMergedSurface Face.top 0
        ⟨0, 0, 2, 1, CubeKey.tex "t", "minecraft:stone"⟩] := by
    unfold mergeFacePlanes
    rw [hrects]
    rfl
  have huvs : surfaceUVs (emitMergedSurface Face.top 0
      ⟨0, 0, 2, 1, CubeKey.tex "t", "minecraft:stone"⟩) =
      [(0, 0), (2, 0), (2, 1), (0, 1)] := by
    simp only [emitMergedSurface, surfaceUVs, buildMergedSurface,
      getFaceVertices, getVertexUVs, normalizeUVs, List.map_cons,
      List.map_nil]
    norm_num
  refine ⟨?_, ?_, by norm_num⟩
  · rw [hsurf]
    exact List.mem_singleton_self _
  · rw [huvs]
    simp

/-- Witness for the amended claim C2: a full north face with the full UV
rectangle yields the corner UV (0, 1) inside [0,1] x [0,1], and the merged
2 x 1 top quad carries (2, 0) within [0, width] x [0, height]. -/
theorem claim_C2_amended_witness :
    (((0 : ℚ), (1 : ℚ)) ∈ modelFaceUVs ModelFace.north (0, 0, 0)
      (16, 16, 16) (0, 0, 16, 16) 0 ∧
     0 ≤ ((0 : ℚ), (1 : ℚ)).1 ∧ ((0 : ℚ), (1 : ℚ)).1 ≤ 1 ∧
     0 ≤ ((0 : ℚ), (1 : ℚ)).2 ∧ ((0 : ℚ), (1 : ℚ)).2 ≤ 1) ∧
    (((2 : ℚ), (0 : ℚ)) ∈ surfaceUVs (emitMergedSurface Face.top 0
      ⟨0, 0, 2, 1, CubeKey.tex "t", "s"⟩) ∧
     0 ≤ ((2 : ℚ), (0 : ℚ)).1 ∧
     ((2 : ℚ), (0 : ℚ)).1 ≤ ((MergedRect.mk 0 0 2 1 (CubeKey.tex "t")
       "s").width : ℚ) ∧
     0 ≤ ((2 : ℚ), (0 : ℚ)).2 ∧
     ((2 : ℚ), (0 : ℚ)).2 ≤ ((MergedRect.mk 0 0 2 1 (CubeKey.tex "t")
       "s").height : ℚ)) := by
  have hm1 : modelFaceUVs ModelFace.north (0, 0, 0) (16, 16, 16)
      (0, 0, 16, 16) 0 = [(0, 1), (1, 1), (1, 0), (0, 0)] := by
    simp only [modelFaceUVs, getFaceVertices, getVertexUVs, normalizeUVs,
      List.map_cons, List.map_nil]
    norm_num
  have hmem1 : ((0 : ℚ), (1 : ℚ)) ∈ modelFaceUVs ModelFace.north (0, 0, 0)
      (16, 16, 16) (0, 0, 16, 16) 0 := by
    rw [hm1]
    simp
  have huvs2 : surfaceUVs (emitMergedSurface Face.top 0
      ⟨0, 0, 2, 1, CubeKey.tex "t", "s"⟩) =
      [(0, 0), (2, 0), (2, 1), (0, 1)] := by
    simp only [emitMergedSurface, surfaceUVs, buildMergedSurface,
      getFaceVertices, getVertexUVs, normalizeUVs, List.map_cons,
      List.map_nil]
    norm_num
  have hmem2 : ((2 : ℚ), (0 : ℚ)) ∈ surfaceUVs (emitMergedSurface Face.top 0
      ⟨0, 0, 2, 1, CubeKey.tex "t", "s"⟩) := by
    rw [huvs2]
    simp
  have h1 := claim_C2_amended.1 ModelFace.north (0, 0, 0) (16, 16, 16)
    (0, 0, 16, 16) 0 (by norm_num) (by norm_num) (by norm_num) (by norm_num)
    (by norm_num) (by norm_num) (by norm_num) (by norm_num)
    ((0 : ℚ), (1 : ℚ)) hmem1
  have h2 := claim_C2_amended.2 Face.top 0
    ⟨0, 0, 2, 1, CubeKey.tex "t", "s"⟩ ((2 : ℚ), (0 : ℚ)) hmem2
  exact ⟨⟨hmem1, h1⟩, ⟨hmem2, h2⟩⟩


end Litematic
